import Mathlib

/-!
Shallow embedding of the x86-to-LLVM-IR instruction/control-flow translator
(`translateFunc` and its helpers).  Pure data is modelled by inductive types;
the translator's in-place mutation of the function under translation (its
register-cell map, flag-cell map, the basic block being filled in, and the
final list of emitted blocks) is modelled by explicit state passing; Go
`error` returns and Go panics are modelled by an `Except`-style result whose
error type distinguishes the two.  Machine addresses (`bin.Address`,
including the signed displacements mixed into them) are modelled as `Int`.
-/

/-- Machine address (`bin.Address`); modelled as `Int` so that negative
relative displacements add exactly. -/
abbrev Addr := Int

/-- Physical register identifier (`x86asm.Reg`, an integer constant).
`0` is the zero `Reg` (no register). -/
abbrev Reg := Nat

/-- `x86asm.AL`, the first register constant. -/
def AL : Reg := 1

/-- `x86asm.R15B`, the last 8-bit register constant. -/
def R15B : Reg := 20

/-- `x86asm.AX`, the first 16-bit register constant. -/
def AX : Reg := 21

/-- `x86asm.R15W`, the last 16-bit register constant. -/
def R15W : Reg := 36

/-- `x86asm.EAX`, the first 32-bit register constant. -/
def EAX : Reg := 37

/-- `x86asm.ECX`. -/
def ECX : Reg := 38

/-- `x86asm.EDX`. -/
def EDX : Reg := 39

/-- `x86asm.R15L`, the last 32-bit register constant. -/
def R15L : Reg := 52

/-- `x86asm.RAX`, the first 64-bit register constant. -/
def RAX : Reg := 53

/-- `x86asm.R15`, the last 64-bit register constant. -/
def R15 : Reg := 68

/-- `x86asm.IP` (16-bit instruction pointer). -/
def IP : Reg := 69

/-- `x86asm.EIP` (32-bit instruction pointer). -/
def EIP : Reg := 70

/-- `x86asm.RIP` (64-bit instruction pointer). -/
def RIP : Reg := 71

/-- `x86asm.TR7`, the last register constant in the enumeration. -/
def TR7 : Reg := 154

/-- The status flags (`StatusFlag`), in their declaration order
`CF, PF, AF, ZF, SF, OF`. -/
inductive StatusFlag
  | CF
  | PF
  | AF
  | ZF
  | SF
  | OF
deriving DecidableEq, Repr

/-- The canonical enumeration order of the status flags, as iterated by the
Go loop `for status := CF; status <= OF; status++`. -/
def statusOrder : List StatusFlag := [.CF, .PF, .AF, .ZF, .SF, .OF]

/-- LLVM IR types (`types.Type`), restricted to the shapes the translator
manipulates: `void`, the integer widths handed out by `reg`, pointers,
arrays and structs (for the global memory model). -/
inductive Ty
  | void
  | i1
  | i8
  | i16
  | i32
  | i64
  | ptr (elem : Ty)
  | arr (len : Nat) (elem : Ty)
  | strct (fields : List Ty)

/-- `types.Equal(t, types.Void)`: whether a type is the void type. -/
def Ty.isVoid : Ty → Bool
  | .void => true
  | _ => false

/-- Calling conventions distinguished by the translator: the two-register
`ir.CallConvX86FastCall` and everything else (the `default` switch arm). -/
inductive CallConv
  | fastcall
  | unknown
deriving DecidableEq, Repr

/-- Decoded operand (`x86asm.Arg`): register, memory
(`Segment:[Base+Scale*Index+Disp]`), immediate, or PC-relative.
`Arg.none` stands for a nil entry of the fixed-size `Args` array. -/
inductive Arg
  | reg (r : Reg)
  | mem (seg : Reg) (base : Reg) (scale : Nat) (index : Reg) (disp : Int)
  | imm (v : Int)
  | rel (off : Int)
  | none
deriving DecidableEq, Repr

/-- Instruction opcodes distinguished by the translator's switches.
`OTHER` stands for every opcode with no defined rule. -/
inductive Opcode
  | ADD
  | AND
  | CALL
  | CMP
  | IMUL
  | INC
  | MOV
  | PUSH
  | POP
  | XOR
  | JA
  | JAE
  | JB
  | JBE
  | JCXZ
  | JE
  | JECXZ
  | JG
  | JGE
  | JL
  | JLE
  | JNE
  | JNO
  | JNP
  | JNS
  | JO
  | JP
  | JRCXZ
  | JS
  | JMP
  | RET
  | OTHER
deriving DecidableEq, Repr

/-- A decoded instruction (`*instruction`): opcode, operand list, source
address, encoded length.  `dummyTerm` is Modelled from the spec: the
`isDummyTerm` method is not among the provided sources; per the spec a
terminator "may be a synthetic fallthrough terminator (no real opcode)
inserted when a block has no explicit control-transfer at its end", so it
is carried as a boolean mark on the instruction. -/
structure instruction where
  op : Opcode
  args : List Arg
  addr : Addr
  len : Nat
  dummyTerm : Bool
deriving DecidableEq, Repr

/-- `inst.Args[n]` of the fixed-size operand array: missing entries are nil
(`Arg.none`). -/
def argN (i : instruction) (n : Nat) : Arg := i.args.getD n Arg.none

/-- A recovered basic block (`*basicBlock`): starting address, the
non-terminal instructions, and exactly one terminator. -/
structure SrcBlock where
  addr : Addr
  insts : List instruction
  term : instruction
deriving DecidableEq, Repr

/-- A recovered function (`*function`): entry address, IR signature
(return type, parameter count, calling convention) and the address-keyed
block map, modelled as an association list snapshot of the Go map. -/
structure function where
  entry : Addr
  retTy : Ty
  nparams : Nat
  callconv : CallConv
  blocks : List (Addr × SrcBlock)

/-- IR values (`value.Value`): results of emitted instructions (numbered),
integer constants, global-variable references, `*main.function` references,
the per-function register and flag cells (the allocas handed out by `reg`
and `status`, identified by their register/flag), and incoming parameters. -/
inductive Value
  | inst (id : Nat)
  | constInt (v : Int) (ty : Ty)
  | global (addr : Addr)
  | func (fn : function)
  | regCell (r : Reg)
  | statusCell (st : StatusFlag)
  | param (i : Nat)

/-- `constant.False`: the `i1` constant 0. -/
def falseConst : Value := .constInt 0 .i1

/-- Integer comparison predicates used by the translator
(`ir.IntEQ`, `ir.IntNE`, `ir.IntSLT`). -/
inductive IPred
  | eq
  | ne
  | slt
deriving DecidableEq, Repr

/-- Emitted non-terminator IR instructions.  `gep` records its constant
`i64` indices directly (`constant.NewInt(j, types.I64)`); `allocaReg` and
`allocaStatus` are the cell declarations appended to the synthetic entry
block (the register alloca is typed by the register's width class, the
flag alloca is `i1`, both named after the register/flag). -/
inductive Inst
  | load (src : Value)
  | store (v : Value) (dst : Value)
  | add (x y : Value)
  | and (x y : Value)
  | xor (x y : Value)
  | mul (x y : Value)
  | icmp (p : IPred) (x y : Value)
  | call (callee : Value) (args : List Value)
  | gep (src : Value) (indices : List Int)
  | allocaReg (r : Reg)
  | allocaStatus (st : StatusFlag)

/-- Emitted terminators: unconditional branch, conditional branch and
return.  Branch targets are identified by the target block's address. -/
inductive Term
  | br (target : Addr)
  | condbr (cond : Value) (targetTrue targetFalse : Addr)
  | ret (v : Option Value)

/-- An emitted IR basic block (`*ir.BasicBlock`): its source address
(`none` for the synthetic entry block), the numbered instruction list and
the terminator. -/
structure Block where
  addr : Option Addr
  insts : List (Nat × Inst)
  term : Option Term

/-- What a failure message carries, one constructor per distinct failure
site of the translator. -/
inductive Cause
  | unableToLocateBlock (addr : Addr)
  | invalidTrueBranchCount (n : Nat)
  | missingFunctionBody
  | invalidCalleeType
  | unableToLocateGlobal (addr : Addr)
  | unsupportedInstruction (op : Opcode)
  | unsupportedTerminator (op : Opcode)
  | unsupportedCondBranch (op : Opcode)
  | unsupportedArgType
  | unsupportedRegister (r : Reg)
  | invalidSourceAddressType
  | unableToIndexPointer
  | unsupportedIndexElemType
  | indexOutOfRange
  | nilDereference
deriving DecidableEq, Repr

/-- A translation failure: either a recoverable Go `error` value returned
to the caller (`goError`) or a fatal Go `panic` (`goPanic`). -/
inductive TransErr
  | goError (c : Cause)
  | goPanic (c : Cause)
deriving DecidableEq, Repr

/-- Whether a failure is a recoverable error value (a Go `error` return)
rather than a fatal panic. -/
def TransErr.isRecoverable : TransErr → Bool
  | .goError _ => true
  | .goPanic _ => false

/-- The address context carried by a failure message, when it has one. -/
def Cause.addrContext : Cause → Option Addr
  | .unableToLocateBlock a => some a
  | .unableToLocateGlobal a => some a
  | _ => Option.none

/-- The address context of a translation failure. -/
def TransErr.addrContext : TransErr → Option Addr
  | .goError c => c.addrContext
  | .goPanic c => c.addrContext

/-- The mutable translation state of one function: the fresh-value counter,
the function's register-cell and flag-cell maps (`f.regs` / `f.status`,
kept as the list of identifiers that own a cell, in allocation order), the
basic block currently being filled in (`block`: its instruction buffer and
terminator), and the function's emitted body (`f.Blocks`). -/
structure TransState where
  nextId : Nat
  regs : List Reg
  status : List StatusFlag
  insts : List (Nat × Inst)
  term : Option Term
  body : List Block

/-- The translation computation type: explicit state passing plus an
`Except`-style result.  The state is returned also on failure, because the
Go code mutates the function in place and an error return does not undo
those mutations. -/
def TransM (α : Type) : Type := TransState → TransState × Except TransErr α

/-- `pure` for `TransM`. -/
def TransM.pure (a : α) : TransM α := fun s => (s, .ok a)

/-- `bind` for `TransM`: on failure the state of the failing computation is
kept and the failure propagates. -/
def TransM.bind (m : TransM α) (k : α → TransM β) : TransM β := fun s =>
  match m s with
  | (s', .ok a) => k a s'
  | (s', .error e) => (s', .error e)

instance : Monad TransM where
  pure := TransM.pure
  bind := TransM.bind

/-- Fail with the given translation failure. -/
def throwT (e : TransErr) : TransM α := fun s => (s, .error e)

/-- Read the translation state. -/
def getS : TransM TransState := fun s => (s, .ok s)

/-- Update the translation state. -/
def modifyS (f : TransState → TransState) : TransM Unit := fun s => (f s, .ok ())

/-- Append one IR instruction to the basic block currently being built
(`block.NewLoad`, `block.NewStore`, ..., `entry.AppendInst`) and return it
as a value. -/
def emit (i : Inst) : TransM Value := fun s =>
  ({s with nextId := s.nextId + 1, insts := s.insts ++ [(s.nextId, i)]},
   .ok (.inst s.nextId))

/-- Set the terminator of the basic block currently being built
(`block.NewBr`, `block.NewCondBr`, `block.NewRet`). -/
def emitTerm (t : Term) : TransM Unit := fun s => ({s with term := some t}, .ok ())

/-- The width class handed out for each register by `reg`'s switch:
8-bit registers get `i8`, 16-bit `i16`, 32-bit `i32`, 64-bit `i64`, the
instruction pointers their width, and every other register class
(x87/MMX/XMM/segment/system/control/debug/task registers) has no supported
type (the switch panics).  The explicit constant lists of the Go switch
are exactly the contiguous enumeration ranges used here. -/
def regType (r : Reg) : Option Ty :=
  if AL ≤ r ∧ r ≤ R15B then some .i8
  else if AX ≤ r ∧ r ≤ R15W then some .i16
  else if EAX ≤ r ∧ r ≤ R15L then some .i32
  else if RAX ≤ r ∧ r ≤ R15 then some .i64
  else if r = IP then some .i16
  else if r = EIP then some .i32
  else if r = RIP then some .i64
  else Option.none

/-- `reg`: return the cell associated with the given register, creating it
(an alloca of the register's width class) on first use; registers of an
unsupported class panic. -/
def reg (r : Reg) : TransM Value := fun s =>
  if r ∈ s.regs then (s, .ok (.regCell r))
  else
    match regType r with
    | some _ => ({s with regs := s.regs ++ [r]}, .ok (.regCell r))
    | Option.none => (s, .error (.goPanic (.unsupportedRegister r)))

/-- `status`: return the cell associated with the given status flag,
creating it (an `i1` alloca) on first use. -/
def status (st : StatusFlag) : TransM Value := fun s =>
  if st ∈ s.status then (s, .ok (.statusCell st))
  else ({s with status := s.status ++ [st]}, .ok (.statusCell st))

/-- `useStatus`: load from the given status flag's cell. -/
def useStatus (st : StatusFlag) : TransM Value := do
  let src ← status st
  emit (.load src)

/-- `defStatus`: store to the given status flag's cell. -/
def defStatus (st : StatusFlag) (v : Value) : TransM Unit := do
  let dst ← status st
  let _ ← emit (.store v dst)
  TransM.pure ()

mutual

/-- Modelled from the spec: `sizeOfType` is called by `global` and
`getElementPtr` but is not among the provided sources.  Per the spec it is
the byte size of a type on the 32-bit target: integers by width, pointers
one machine word, an array is its element count times the element size,
and a struct is the sum of its field sizes in declaration order. -/
def sizeOfType : Ty → Int
  | .void => 0
  | .i1 => 1
  | .i8 => 1
  | .i16 => 2
  | .i32 => 4
  | .i64 => 8
  | .ptr _ => 4
  | .arr n t => (n : Int) * sizeOfType t
  | .strct fields => sizeOfFields fields

/-- Byte size of a struct's field list (helper of `sizeOfType`). -/
def sizeOfFields : List Ty → Int
  | [] => 0
  | t :: ts => sizeOfType t + sizeOfFields ts

end

/-- The inner loop of `getElementPtr`'s array case: advance `j` through
successive elements (at most `remaining` of them, i.e. `j < t.Len`),
accumulating `elemSize` into `total`, stopping at the element whose span
covers the target offset.  Returns the final `(j, total)`. -/
def arrLoop (elemSize offset : Int) : Nat → Nat → Int → Nat × Int
  | 0, j, total => (j, total)
  | r + 1, j, total =>
    if total + elemSize > offset then (j, total)
    else arrLoop elemSize offset r (j + 1) (total + elemSize)

/-- The inner loop of `getElementPtr`'s struct case: advance `j` through
successive fields in declaration order, accumulating each field's size,
stopping at the field whose span covers the target offset.  Returns the
final `(j, total)`. -/
def structLoop (offset : Int) : List Ty → Nat → Int → Nat × Int
  | [], j, total => (j, total)
  | fTy :: rest, j, total =>
    if total + sizeOfType fTy > offset then (j, total)
    else structLoop offset rest (j + 1) (total + sizeOfType fTy)

/-- The offset-walk loop of `getElementPtr` from its second iteration on
(the first iteration appended the fixed leading zero index): while `total`
has not yet reached `offset`, step into the current element type.
Indexing into a pointer element type or into a non-composite element type
panics; running off the end of a struct's field list is the Go runtime's
index-out-of-range panic at `t.Fields[j]`. -/
def gepWalk : (e : Ty) → (total offset : Int) → (indices : List Int) →
    Except TransErr (List Int)
  | e, total, offset, indices =>
    if total ≥ offset then .ok indices
    else
      match e with
      | .ptr _ => .error (.goPanic .unableToIndexPointer)
      | .arr len t =>
        let elemSize := sizeOfType t
        let (j, total') := arrLoop elemSize offset len 0 total
        gepWalk t total' offset (indices ++ [(j : Int)])
      | .strct fields =>
        let (j, total') := structLoop offset fields 0 total
        match h : fields.get? j with
        | some fj => gepWalk fj total' offset (indices ++ [(j : Int)])
        | Option.none => .error (.goPanic .indexOutOfRange)
      | _ => .error (.goPanic .unsupportedIndexElemType)
termination_by e => sizeOf e
decreasing_by
  · simp only [Ty.arr.sizeOf_spec]; omega
  · have hm : fj ∈ fields := List.get?_mem h
    have := List.sizeOf_lt_of_mem hm
    simp only [Ty.strct.sizeOf_spec]; omega

/-- `getElementPtr`: emit a pointer to the given byte offset into the
source value (whose type is passed alongside, standing for `src.Type()`);
the source type must be a pointer type.  A non-positive offset exits the
loop before any structural index is produced; otherwise the fixed leading
zero index is appended first and the element walk produces the rest. -/
def getElementPtr (src : Value) (srcTy : Ty) (offset : Int) : TransM Value :=
  match srcTy with
  | .ptr elem =>
    if (0 : Int) ≥ offset then emit (.gep src [])
    else
      match gepWalk elem 0 offset [0] with
      | .ok indices => emit (.gep src indices)
      | .error e => throwT e
  | _ => throwT (.goPanic .invalidSourceAddressType)

/-- Association-list lookup standing for Go map indexing (keys of a Go map
are unique). -/
def lookupA : List (Addr × α) → Addr → Option α
  | [], _ => Option.none
  | (a, x) :: rest, addr => if a = addr then some x else lookupA rest addr

/-- The read-only inputs of a translation run (`*disassembler`): the
global-variable table (address to content type), the function table
(address to `*function`), and the tail-call recognizer.  `tailCall` is
Modelled from the spec: `isTailCall` is not among the provided sources;
per the spec it is a heuristic deciding whether an unconditional jump is a
disguised call, so it is carried as an oracle on (function entry,
terminator). -/
structure Disasm where
  globals : List (Addr × Ty)
  funcs : List (Addr × function)
  tailCall : Addr → instruction → Bool

/-- `global`: return a pointer to the value associated with the given
global-variable address.  Exact hits on a known start address return the
global directly; otherwise the sorted start addresses are searched for the
greatest start address not above the queried address (`sort.Search` on the
monotone predicate, then decrement) and, when the address falls inside
that global's type, an element pointer at the byte offset is produced;
every other case panics ("unable to locate global variable"). -/
def global (d : Disasm) (f : function) (addr : Addr) : TransM Value :=
  match lookupA d.globals addr with
  | some _ => TransM.pure (.global addr)
  | Option.none =>
    let globalAddrs := List.insertionSort (· ≤ ·) (d.globals.map Prod.fst)
    let idx := globalAddrs.findIdx (fun a => decide (addr < a))
    -- index := idx - 1 (`sort.Search` result minus one, as a Go int)
    if 1 ≤ idx ∧ idx - 1 < globalAddrs.length then
      let start := globalAddrs.getD (idx - 1) 0
      match lookupA d.globals start with
      | some elemTy =>
        let size := sizeOfType elemTy
        let endA := start + size
        if start ≤ addr ∧ addr < endA then
          getElementPtr (.global start) (.ptr elemTy) (addr - start)
        else
          throwT (.goPanic (.unableToLocateGlobal addr))
      | Option.none =>
        -- unreachable: `start` is one of the map's own keys
        throwT (.goPanic (.unableToLocateGlobal addr))
    else
      throwT (.goPanic (.unableToLocateGlobal addr))

/-- `useGlobal`: load from the location of the given global address. -/
def useGlobal (d : Disasm) (f : function) (addr : Addr) : TransM Value := do
  let src ← global d f addr
  emit (.load src)

/-- `defGlobal`: store to the location of the given global address. -/
def defGlobal (d : Disasm) (f : function) (addr : Addr) (v : Value) : TransM Unit := do
  let dst ← global d f addr
  let _ ← emit (.store v dst)
  TransM.pure ()

/-- `useArg`: read the value denoted by an operand.  Registers load from
their cell; a bare-displacement memory operand resolves the displacement
through the global memory model and loads; other memory shapes panic
(after a diagnostic print for positive displacements); immediates become
32-bit constants; a relative operand resolves against the address
following the instruction, yielding the function at that address when one
exists and a global load otherwise (dereferencing the nil instruction
panics). -/
def useArg (d : Disasm) (f : function) (inst : Option instruction) (arg : Arg) :
    TransM Value :=
  match arg with
  | .reg r => do
    let src ← reg r
    emit (.load src)
  | .mem seg base scale index disp =>
    if seg = 0 ∧ base = 0 ∧ scale = 0 ∧ index = 0 then
      useGlobal d f disp
    else
      throwT (.goPanic .unsupportedArgType)
  | .imm v => TransM.pure (.constInt v .i32)
  | .rel off =>
    match inst with
    | some i =>
      let addr := i.addr + (i.len : Int) + off
      match lookupA d.funcs addr with
      | some fn => TransM.pure (.func fn)
      | Option.none => useGlobal d f addr
    | Option.none => throwT (.goPanic .nilDereference)
  | .none => throwT (.goPanic .unsupportedArgType)

/-- `defArg`: write a value to the location denoted by an operand.
Registers store to their cell; a bare-displacement memory operand stores
through the global memory model; every other operand kind (other memory
shapes, immediates, relatives — the latter two cases are commented out in
the switch and so fall to the default) panics. -/
def defArg (d : Disasm) (f : function) (inst : Option instruction) (arg : Arg)
    (v : Value) : TransM Unit :=
  match arg with
  | .reg r => do
    let dst ← reg r
    let _ ← emit (.store v dst)
    TransM.pure ()
  | .mem seg base scale index disp =>
    if seg = 0 ∧ base = 0 ∧ scale = 0 ∧ index = 0 then
      defGlobal d f disp v
    else
      throwT (.goPanic .unsupportedArgType)
  | .imm _ => throwT (.goPanic .unsupportedArgType)
  | .rel _ => throwT (.goPanic .unsupportedArgType)
  | .none => throwT (.goPanic .unsupportedArgType)

/-- `updateStatusFlags`: set the status flags from operands `x` and `y`:
`ZF := icmp eq x y` and `SF := icmp slt x y`; the CF, PF, AF and OF flags
are not computed in this version. -/
def updateStatusFlags (f : function) (x y : Value) : TransM Unit := do
  let zf ← emit (.icmp .eq x y)
  defStatus .ZF zf
  let sf ← emit (.icmp .slt x y)
  defStatus .SF sf

/-- `instADD`. -/
def instADD (d : Disasm) (f : function) (inst : instruction) : TransM Unit := do
  let x ← useArg d f (some inst) (argN inst 0)
  let y ← useArg d f (some inst) (argN inst 1)
  let result ← emit (.add x y)
  defArg d f (some inst) (argN inst 0) result

/-- `instAND`. -/
def instAND (d : Disasm) (f : function) (inst : instruction) : TransM Unit := do
  let x ← useArg d f (some inst) (argN inst 0)
  let y ← useArg d f (some inst) (argN inst 1)
  let result ← emit (.and x y)
  defArg d f (some inst) (argN inst 0) result

/-- `instCALL`: the callee operand must resolve to a `*main.function`
value, otherwise a recoverable "invalid callee type" error is returned;
fastcall callees take their first two parameters from the ECX and EDX
cells; the call result of a non-void callee is stored to EAX. -/
def instCALL (d : Disasm) (f : function) (inst : instruction) : TransM Unit := do
  let c ← useArg d f (some inst) (argN inst 0)
  match c with
  | .func callee => do
    let args ←
      match callee.callconv with
      | CallConv.fastcall =>
        if 0 < callee.nparams then do
          let a0 ← useArg d f Option.none (.reg ECX)
          if 1 < callee.nparams then do
            let a1 ← useArg d f Option.none (.reg EDX)
            TransM.pure [a0, a1]
          else TransM.pure [a0]
        else TransM.pure ([] : List Value)
      | CallConv.unknown => TransM.pure ([] : List Value)
    let result ← emit (.call (.func callee) args)
    if callee.retTy.isVoid then TransM.pure ()
    else defArg d f Option.none (.reg EAX) result
  | _ => throwT (.goError .invalidCalleeType)

/-- `instCMP`: read both operands and update the status flags; neither
operand is written and no dedicated IR comparison is synthesized. -/
def instCMP (d : Disasm) (f : function) (inst : instruction) : TransM Unit := do
  let x ← useArg d f (some inst) (argN inst 0)
  let y ← useArg d f (some inst) (argN inst 1)
  updateStatusFlags f x y

/-- `instIMUL` (three-operand form: dest, src1, src2). -/
def instIMUL (d : Disasm) (f : function) (inst : instruction) : TransM Unit := do
  let x ← useArg d f (some inst) (argN inst 1)
  let y ← useArg d f (some inst) (argN inst 2)
  let result ← emit (.mul x y)
  defArg d f (some inst) (argN inst 0) result

/-- `instINC`: add the 32-bit constant 1. -/
def instINC (d : Disasm) (f : function) (inst : instruction) : TransM Unit := do
  let x ← useArg d f (some inst) (argN inst 0)
  let one : Value := .constInt 1 .i32
  let result ← emit (.add x one)
  defArg d f (some inst) (argN inst 0) result

/-- `instMOV`: read the source operand and write it unchanged to the
destination operand. -/
def instMOV (d : Disasm) (f : function) (inst : instruction) : TransM Unit := do
  let y ← useArg d f (some inst) (argN inst 1)
  defArg d f (some inst) (argN inst 0) y

/-- `instXOR`. -/
def instXOR (d : Disasm) (f : function) (inst : instruction) : TransM Unit := do
  let x ← useArg d f (some inst) (argN inst 0)
  let y ← useArg d f (some inst) (argN inst 1)
  let result ← emit (.xor x y)
  defArg d f (some inst) (argN inst 0) result

/-- `translateInst`: dispatch on opcode; PUSH and POP are explicit no-ops;
every opcode with no defined rule panics. -/
def translateInst (d : Disasm) (f : function) (inst : instruction) : TransM Unit :=
  match inst.op with
  | .ADD => instADD d f inst
  | .AND => instAND d f inst
  | .CALL => instCALL d f inst
  | .CMP => instCMP d f inst
  | .IMUL => instIMUL d f inst
  | .INC => instINC d f inst
  | .MOV => instMOV d f inst
  | .PUSH => TransM.pure ()
  | .POP => TransM.pure ()
  | .XOR => instXOR d f inst
  | op => throwT (.goPanic (.unsupportedInstruction op))

/-- Modelled from the spec: `getAddrs` is not among the provided sources.
Per the spec, the conditional branch's "true-target is computed by
resolving the branch's relative operand against the address immediately
following the branch instruction", i.e. a relative operand yields the
single address `next + off`; no other operand kind yields a target
address at this call site. -/
def getAddrs (d : Disasm) (next : Addr) : Arg → List Addr
  | .rel off => [next + off]
  | _ => []

/-- `termCondBranch`: resolve the true target from the relative operand
against the address immediately following the branch (exactly one target
address, else a recoverable error), the false target being that following
address itself; both must name known blocks of the function (else a
recoverable "unable to locate basic block" error — note the source
reports `targetTrueAddr` in the false-target message too).  The condition
is computed from the flag cells for JL (`SF ≠ OF`), JG
(`ZF = false and SF = OF`) and JNE (`ZF = false`); every other condition
code panics as unsupported. -/
def termCondBranch (d : Disasm) (f : function) (term : instruction) : TransM Unit :=
  let next := term.addr + (term.len : Int)
  match getAddrs d next (argN term 0) with
  | [targetTrueAddr] =>
    (match lookupA f.blocks targetTrueAddr with
     | Option.none => throwT (.goError (.unableToLocateBlock targetTrueAddr))
     | some _ =>
       match lookupA f.blocks next with
       | Option.none => throwT (.goError (.unableToLocateBlock targetTrueAddr))
       | some _ => do
         let cond ←
           (match term.op with
            | Opcode.JL => do
              let sf ← useStatus .SF
              let of ← useStatus .OF
              emit (.icmp .ne sf of)
            | Opcode.JG => do
              let sf ← useStatus .SF
              let of ← useStatus .OF
              let zf ← useStatus .ZF
              let cond1 ← emit (.icmp .eq zf falseConst)
              let cond2 ← emit (.icmp .eq sf of)
              emit (.and cond1 cond2)
            | Opcode.JNE => do
              let zf ← useStatus .ZF
              emit (.icmp .eq zf falseConst)
            | op => throwT (.goPanic (.unsupportedCondBranch op)))
         emitTerm (.condbr cond targetTrueAddr next))
  | l => throwT (.goError (.invalidTrueBranchCount l.length))

/-- `termRET`: a non-void function loads the EAX cell and returns it; a
void function returns with no value. -/
def termRET (d : Disasm) (f : function) (term : instruction) : TransM Unit :=
  if ¬ f.retTy.isVoid then do
    let result ← useArg d f Option.none (.reg EAX)
    emitTerm (.ret (some result))
  else emitTerm (.ret Option.none)

/-- `termJMP`: a jump recognized as a tail call is interpreted as a CALL
instruction and followed by the same return synthesis as `termRET` (load
EAX and return it when the enclosing function is non-void, else a void
return); every other unconditional jump panics as unsupported. -/
def termJMP (d : Disasm) (f : function) (term : instruction) : TransM Unit :=
  if d.tailCall f.entry term then do
    instCALL d f term
    if ¬ f.retTy.isVoid then do
      let result ← useArg d f Option.none (.reg EAX)
      emitTerm (.ret (some result))
    else emitTerm (.ret Option.none)
  else throwT (.goPanic (.unsupportedTerminator .JMP))

/-- `translateTerm`: a synthetic fallthrough terminator branches to the
block whose address equals the terminator's own recorded address (which
must name a known block, else a recoverable error); otherwise dispatch on
the terminator opcode, panicking on any opcode outside the closed set. -/
def translateTerm (d : Disasm) (f : function) (term : instruction) : TransM Unit :=
  if term.dummyTerm then
    match lookupA f.blocks term.addr with
    | Option.none => throwT (.goError (.unableToLocateBlock term.addr))
    | some _ => emitTerm (.br term.addr)
  else
    match term.op with
    | .JA | .JAE | .JB | .JBE | .JCXZ | .JE | .JECXZ | .JG | .JGE | .JL
    | .JLE | .JNE | .JNO | .JNP | .JNS | .JO | .JP | .JRCXZ | .JS =>
      termCondBranch d f term
    | .JMP => termJMP d f term
    | .RET => termRET d f term
    | op => throwT (.goPanic (.unsupportedTerminator op))

/-- The instruction loop of `translateBlock`. -/
def translateInsts (d : Disasm) (f : function) : List instruction → TransM Unit
  | [] => TransM.pure ()
  | i :: rest => do
    translateInst d f i
    translateInsts d f rest

/-- `translateBlock`: translate the block's instructions then its
terminator, filling a fresh IR block (the state's block buffer), and
return the finished block. -/
def translateBlock (d : Disasm) (f : function) (block : SrcBlock) : TransM Block := do
  modifyS fun s => {s with insts := [], term := Option.none}
  translateInsts d f block.insts
  translateTerm d f block.term
  let s ← getS
  TransM.pure { addr := some block.addr, insts := s.insts, term := s.term }

/-- The block loop of `translateFunc`: translate the block of each address
in order, collecting the finished blocks.  Go indexes the block map with
an address just collected from it; an address with no block would be a nil
dereference. -/
def translateBlocksLoop (d : Disasm) (f : function) : List Addr → TransM (List Block)
  | [] => TransM.pure []
  | a :: rest => do
    match lookupA f.blocks a with
    | some b => do
      let blk ← translateBlock d f b
      let restBlocks ← translateBlocksLoop d f rest
      TransM.pure (blk :: restBlocks)
    | Option.none => throwT (.goPanic .nilDereference)

/-- The canonical register enumeration `AL, AL+1, ..., TR7` iterated by the
entry-block loop `for reg := x86asm.AL; reg <= x86asm.TR7; reg++`. -/
def regOrder : List Reg := List.range' AL (TR7 + 1 - AL)

/-- The entry-block register loop: append the alloca of every used
register cell, in canonical enumeration order. -/
def declareRegs (used : List Reg) : List Reg → TransM Unit
  | [] => TransM.pure ()
  | r :: rest => do
    if r ∈ used then do
      let _ ← emit (.allocaReg r)
      declareRegs used rest
    else declareRegs used rest

/-- The entry-block status-flag loop: append the alloca of every used flag
cell, in canonical enumeration order. -/
def declareStatus (used : List StatusFlag) : List StatusFlag → TransM Unit
  | [] => TransM.pure ()
  | st :: rest => do
    if st ∈ used then do
      let _ ← emit (.allocaStatus st)
      declareStatus used rest
    else declareStatus used rest

/-- The calling-convention section of the synthetic entry block: under
the two-register fastcall convention, store incoming parameter 0 into the
ECX cell and parameter 1 into the EDX cell, each only when the function
has that parameter and the cell exists; other conventions add nothing. -/
def entryCallConv (f : function) (used : List Reg) : TransM Unit :=
  match f.callconv with
  | CallConv.fastcall => do
    (if 0 < f.nparams then
       if ECX ∈ used then do
         let _ ← emit (.store (.param 0) (.regCell ECX))
         TransM.pure ()
       else TransM.pure ()
     else TransM.pure ())
    (if 1 < f.nparams then
       if EDX ∈ used then do
         let _ ← emit (.store (.param 1) (.regCell EDX))
         TransM.pure ()
       else TransM.pure ()
     else TransM.pure ())
  | CallConv.unknown => TransM.pure ()

/-- Sort key of the re-sort of translated blocks (`sort.Slice` on
`blocks[i].addr`); every block of that list has a real address. -/
def Block.sortAddr (b : Block) : Addr := b.addr.getD 0

/-- The ordering used by the re-sort of translated blocks. -/
def blockLe (b1 b2 : Block) : Prop := b1.sortAddr ≤ b2.sortAddr

instance : DecidableRel blockLe := fun b1 b2 => Int.decLe _ _

instance : IsTotal Block blockLe := ⟨fun b1 b2 => Int.le_total _ _⟩

instance : IsTrans Block blockLe := ⟨fun _ _ _ h1 h2 => Int.le_trans h1 h2⟩

/-- `translateFunc`: collect the block addresses and sort them, translate
every block in address order, fail with "missing function body" when there
is none, re-sort the translated blocks by address, synthesize and prepend
an entry block when the function uses at least one register or flag cell
(declaring the used register cells in canonical register order, then the
used flag cells in canonical flag order, then storing the two fastcall
parameters into the ECX and EDX cells when present, and branching to the
first real block), and append all blocks to the function body.  (The
signature synthesis for a function without one only fabricates a name and
metadata and is not modelled.) -/
def translateFunc (d : Disasm) (f : function) : TransM Unit := do
  let blockAddrs := List.insertionSort (· ≤ ·) (f.blocks.map (fun p => p.2.addr))
  let blocks ← translateBlocksLoop d f blockAddrs
  match blocks with
  | [] => throwT (.goError .missingFunctionBody)
  | _ :: _ =>
    let sorted := List.insertionSort blockLe blocks
    let s ← getS
    if 0 < s.regs.length ∨ 0 < s.status.length then do
      modifyS fun st => {st with insts := [], term := Option.none}
      declareRegs s.regs regOrder
      declareStatus s.status statusOrder
      entryCallConv f s.regs
      match sorted with
      | target :: _ => do
        emitTerm (.br target.sortAddr)
        let s2 ← getS
        let entry : Block := { addr := Option.none, insts := s2.insts, term := s2.term }
        modifyS fun st => {st with body := st.body ++ (entry :: sorted)}
      | [] => throwT (.goPanic .nilDereference)
    else
      modifyS fun st => {st with body := st.body ++ sorted}

/-! ## Derived definitions, fixtures and statement vocabulary -/

/-- The register-cell map after `reg` touches register `r`. -/
def regAfter (l : List Reg) (r : Reg) : List Reg := if r ∈ l then l else l ++ [r]

/-- The flag-cell map after `status` touches flag `st`. -/
def statusAfter (l : List StatusFlag) (st : StatusFlag) : List StatusFlag :=
  if st ∈ l then l else l ++ [st]

/-- The fresh translation state a function's translation starts from. -/
def initState : TransState := ⟨0, [], [], [], Option.none, []⟩

/-- The register-cell declarations of the synthetic entry block: one
alloca per used register, in the canonical register enumeration order. -/
def canonicalRegDecls (used : List Reg) : List Inst :=
  (regOrder.filter (fun r => decide (r ∈ used))).map Inst.allocaReg

/-- The flag-cell declarations of the synthetic entry block: one alloca
per used flag, in the canonical flag enumeration order. -/
def canonicalStatusDecls (used : List StatusFlag) : List Inst :=
  (statusOrder.filter (fun st => decide (st ∈ used))).map Inst.allocaStatus

/-- The calling-convention stores of the synthetic entry block: under the
two-register fastcall convention, parameter 0 goes to the ECX cell and
parameter 1 to the EDX cell, each only when that cell exists. -/
def ccStores (f : function) (used : List Reg) : List Inst :=
  match f.callconv with
  | CallConv.fastcall =>
    (if 0 < f.nparams ∧ ECX ∈ used then [.store (.param 0) (.regCell ECX)] else []) ++
    (if 1 < f.nparams ∧ EDX ∈ used then [.store (.param 1) (.regCell EDX)] else [])
  | CallConv.unknown => []

/-- The entry-block synthesis contract of `translateFunc`, stated of the
final translation state: a function using no register or flag cell gets no
synthetic entry block (every emitted block has a real address); a function
using at least one cell gets exactly one synthetic entry block prepended,
which declares the used register cells in canonical register order, then
the used flag cells in canonical flag order, then the calling-convention
parameter stores, and terminates with an unconditional branch to the first
(lowest-address) real block. -/
def EntrySynthesis (f : function) (s1 : TransState) : Prop :=
  (s1.regs = [] ∧ s1.status = [] → ∀ b ∈ s1.body, b.addr.isSome) ∧
  (¬(s1.regs = [] ∧ s1.status = []) →
    ∃ entry rest, s1.body = entry :: rest ∧
      entry.addr = Option.none ∧
      entry.insts.map Prod.snd =
        canonicalRegDecls s1.regs ++ canonicalStatusDecls s1.status ++ ccStores f s1.regs ∧
      (∃ b1 rest2, rest = b1 :: rest2 ∧ entry.term = some (.br b1.sortAddr) ∧
        (∀ b ∈ rest, blockLe b1 b)) ∧
      (∀ b ∈ rest, b.addr.isSome))

/-- State-evolution invariant of every translation operation below
`translateFunc`: the register and flag cell maps only grow, and the
emitted function body is untouched (the body is only ever extended by
`translateFunc` itself, after all blocks have translated). -/
def Accum {α : Type} (m : TransM α) : Prop :=
  ∀ s : TransState, s.regs ⊆ ((m s).1).regs ∧ s.status ⊆ ((m s).1).status ∧
    ((m s).1).body = s.body

/-- Fixture: a disassembler input with no globals, no functions, and a
tail-call oracle answering `false`. -/
def exD : Disasm := ⟨[], [], fun _ _ => false⟩

/-- Fixture: a disassembler input whose tail-call oracle answers `true`. -/
def exDTail : Disasm := ⟨[], [], fun _ _ => true⟩

/-- Fixture: a disassembler input with one global: a 4-element `i32` array
starting at address 16. -/
def exDArr : Disasm := ⟨[(16, Ty.arr 4 Ty.i32)], [], fun _ _ => false⟩

/-- Fixture: a void function with no blocks. -/
def exF : function := ⟨0, Ty.void, 0, CallConv.unknown, []⟩

/-- Fixture: an `i32`-returning function with no blocks. -/
def exF32 : function := ⟨0, Ty.i32, 0, CallConv.unknown, []⟩

/-- Fixture: a RET terminator instruction. -/
def exRET : instruction := ⟨.RET, [], 20, 1, false⟩

/-- Fixture: a source block at address 12 holding only a RET. -/
def exBlkA : SrcBlock := ⟨12, [], exRET⟩

/-- Fixture: a source block at address 7 holding only a RET. -/
def exBlkB : SrcBlock := ⟨7, [], exRET⟩

/-- Fixture: a void function whose blocks are at addresses 12 and 7. -/
def exFBr : function := ⟨0, Ty.void, 0, CallConv.unknown, [(12, exBlkA), (7, exBlkB)]⟩

/-- Fixture: a void function whose only block is at address 12. -/
def exFBr1 : function := ⟨0, Ty.void, 0, CallConv.unknown, [(12, exBlkA)]⟩

/-- Fixture: a JNE terminator at address 5 of length 2 with relative
operand 5 (true target 12, fallthrough 7). -/
def exJNE : instruction := ⟨.JNE, [.rel 5], 5, 2, false⟩

/-- Fixture: the same branch as `exJNE` with opcode JG. -/
def exJG : instruction := ⟨.JG, [.rel 5], 5, 2, false⟩

/-- Fixture: the same branch as `exJNE` with opcode JL. -/
def exJL : instruction := ⟨.JL, [.rel 5], 5, 2, false⟩

/-- Fixture: a JNE terminator whose relative target (105) names no block. -/
def exJNEFar : instruction := ⟨.JNE, [.rel 100], 5, 2, false⟩

/-- Fixture: a CMP instruction comparing EAX with ECX. -/
def exCMP : instruction := ⟨.CMP, [.reg EAX, .reg ECX], 0, 2, false⟩

/-- Fixture: a CALL instruction whose callee operand is the immediate 5. -/
def exCALLImm : instruction := ⟨.CALL, [.imm 5], 0, 5, false⟩

/-- Fixture: a MOV instruction storing immediate 1 into EAX. -/
def exMOV : instruction := ⟨.MOV, [.reg EAX, .imm 1], 0, 5, false⟩

/-- Fixture: a source block at address 0: `MOV EAX, 1` then RET. -/
def exBlkMov : SrcBlock := ⟨0, [exMOV], ⟨.RET, [], 5, 1, false⟩⟩

/-- Fixture: a void function whose single block stores 1 into EAX and
returns. -/
def exFMov : function := ⟨0, Ty.void, 0, CallConv.unknown, [(0, exBlkMov)]⟩

/-- Fixture: three empty RET-only blocks at addresses 0, 8 and 16 and the
void function holding them in scrambled map order. -/
def exBlk0 : SrcBlock := ⟨0, [], ⟨.RET, [], 0, 1, false⟩⟩

/-- Fixture: RET-only block at address 8. -/
def exBlk8 : SrcBlock := ⟨8, [], ⟨.RET, [], 8, 1, false⟩⟩

/-- Fixture: RET-only block at address 16. -/
def exBlk16 : SrcBlock := ⟨16, [], ⟨.RET, [], 16, 1, false⟩⟩

/-- Fixture: a void function with the three RET-only blocks listed in
scrambled order. -/
def exF3 : function := ⟨0, Ty.void, 0, CallConv.unknown,
  [(8, exBlk8), (0, exBlk0), (16, exBlk16)]⟩

/-! ## Run lemmas for the translation monad -/

/-- Unfolding of `bind` on a state. -/
theorem run_bind (m : TransM α) (k : α → TransM β) (s : TransState) :
    (m >>= k) s =
      match m s with
      | (s', .ok a) => k a s'
      | (s', .error e) => (s', .error e) := rfl

/-- Unfolding of `TransM.bind` on a state (the form left behind once
instance projections have been reduced). -/
theorem run_bindM (m : TransM α) (k : α → TransM β) (s : TransState) :
    TransM.bind m k s =
      match m s with
      | (s', .ok a) => k a s'
      | (s', .error e) => (s', .error e) := rfl

/-- Unfolding of `pure` on a state. -/
theorem run_pure (a : α) (s : TransState) : (TransM.pure a : TransM α) s = (s, .ok a) := rfl

/-- A register keeps its cell once it has one. -/
theorem mem_regAfter_of_mem {l : List Reg} {r r' : Reg} (h : r ∈ l) : r ∈ regAfter l r' := by
  unfold regAfter; split
  · exact h
  · exact List.mem_append_left _ h

/-- The touched register has a cell afterwards. -/
theorem mem_regAfter_self (l : List Reg) (r : Reg) : r ∈ regAfter l r := by
  unfold regAfter; split
  · assumption
  · exact List.mem_append_right _ (List.mem_singleton.mpr rfl)

/-- A flag keeps its cell once it has one. -/
theorem mem_statusAfter_of_mem {l : List StatusFlag} {st st' : StatusFlag} (h : st ∈ l) :
    st ∈ statusAfter l st' := by
  unfold statusAfter; split
  · exact h
  · exact List.mem_append_left _ h

/-- The touched flag has a cell afterwards. -/
theorem mem_statusAfter_self (l : List StatusFlag) (st : StatusFlag) :
    st ∈ statusAfter l st := by
  unfold statusAfter; split
  · assumption
  · exact List.mem_append_right _ (List.mem_singleton.mpr rfl)

/-- Run of `reg` on a register of a supported width class. -/
theorem reg_eq (r : Reg) (hr : (regType r).isSome) (s : TransState) :
    reg r s = ({s with regs := regAfter s.regs r}, .ok (.regCell r)) := by
  unfold reg regAfter
  rcases h : regType r with _ | ty
  · rw [h] at hr; simp at hr
  · split <;> rfl

/-- Run of `status`. -/
theorem status_eq (st : StatusFlag) (s : TransState) :
    status st s = ({s with status := statusAfter s.status st}, .ok (.statusCell st)) := by
  unfold status statusAfter
  split <;> rfl

/-- Run of `emit`. -/
theorem emit_eq (i : Inst) (s : TransState) :
    emit i s = ({s with nextId := s.nextId + 1, insts := s.insts ++ [(s.nextId, i)]},
      .ok (.inst s.nextId)) := rfl

/-- Run of `emitTerm`. -/
theorem emitTerm_eq (t : Term) (s : TransState) :
    emitTerm t s = ({s with term := some t}, .ok ()) := rfl

/-- Run of `useStatus`: create the flag cell if needed and load it. -/
theorem useStatus_eq (st : StatusFlag) (s : TransState) :
    useStatus st s =
      ({s with status := statusAfter s.status st,
               nextId := s.nextId + 1,
               insts := s.insts ++ [(s.nextId, .load (.statusCell st))]},
       .ok (.inst s.nextId)) := by
  show (status st >>= fun src => emit (.load src)) s = _
  rw [run_bind, status_eq]; rfl

/-- Run of `defStatus`: create the flag cell if needed and store to it. -/
theorem defStatus_eq (st : StatusFlag) (v : Value) (s : TransState) :
    defStatus st v s =
      ({s with status := statusAfter s.status st,
               nextId := s.nextId + 1,
               insts := s.insts ++ [(s.nextId, .store v (.statusCell st))]},
       .ok ()) := by
  show (status st >>= fun dst => emit (.store v dst) >>= fun _ => TransM.pure ()) s = _
  rw [run_bind, status_eq]; rfl

/-- `regType` at `EAX`. -/
theorem regType_EAX : regType EAX = some .i32 := rfl

/-- `regType` at `ECX`. -/
theorem regType_ECX : regType ECX = some .i32 := rfl

/-- `regType` at `EDX`. -/
theorem regType_EDX : regType EDX = some .i32 := rfl

/-- Run of `useArg` on a register operand of a supported width class. -/
theorem useArg_reg_eq (d : Disasm) (f : function) (oi : Option instruction) (r : Reg)
    (hr : (regType r).isSome) (s : TransState) :
    useArg d f oi (.reg r) s =
      ({s with regs := regAfter s.regs r,
               nextId := s.nextId + 1,
               insts := s.insts ++ [(s.nextId, .load (.regCell r))]},
       .ok (.inst s.nextId)) := by
  show (reg r >>= fun src => emit (.load src)) s = _
  rw [run_bind, reg_eq r hr]; rfl

/-- Run of `defArg` on a register operand of a supported width class. -/
theorem defArg_reg_eq (d : Disasm) (f : function) (oi : Option instruction) (r : Reg)
    (v : Value) (hr : (regType r).isSome) (s : TransState) :
    defArg d f oi (.reg r) v s =
      ({s with regs := regAfter s.regs r,
               nextId := s.nextId + 1,
               insts := s.insts ++ [(s.nextId, .store v (.regCell r))]},
       .ok ()) := by
  show (reg r >>= fun dst => emit (.store v dst) >>= fun _ => TransM.pure ()) s = _
  rw [run_bind, reg_eq r hr]; rfl

/-- `regType EAX` is a supported class. -/
theorem regType_EAX_isSome : (regType EAX).isSome = true := rfl

/-- Run of `termCondBranch` on a JL ("jump if less") terminator whose two
targets resolve: loads SF and OF, emits `icmp ne` on them, and terminates
with a conditional branch to (true) the relative target resolved against
the address following the branch and (false) that following address. -/
theorem termCondBranch_JL_eq (d : Disasm) (f : function) (term : instruction) (off : Int)
    (s : TransState) (bT bF : SrcBlock)
    (hop : term.op = .JL) (h0 : argN term 0 = .rel off)
    (hT : lookupA f.blocks (term.addr + (term.len : Int) + off) = some bT)
    (hF : lookupA f.blocks (term.addr + (term.len : Int)) = some bF) :
    termCondBranch d f term s =
      ({s with status := statusAfter (statusAfter s.status .SF) .OF,
               nextId := s.nextId + 3,
               insts := s.insts ++
                 [(s.nextId, .load (.statusCell .SF)),
                  (s.nextId + 1, .load (.statusCell .OF)),
                  (s.nextId + 2, .icmp .ne (.inst s.nextId) (.inst (s.nextId + 1)))],
               term := some (.condbr (.inst (s.nextId + 2))
                 (term.addr + (term.len : Int) + off) (term.addr + (term.len : Int)))},
       .ok ()) := by
  simp only [termCondBranch, h0, getAddrs, hop, hT, hF, run_bind, useStatus_eq, emit_eq,
    emitTerm_eq]
  simp [List.append_assoc, Nat.add_assoc]

/-- Run of `termCondBranch` on a JG ("jump if greater") terminator whose
two targets resolve: loads SF, OF and ZF, emits `icmp eq` of ZF with the
false constant, `icmp eq` of SF with OF, their `and`, and terminates with
the conditional branch. -/
theorem termCondBranch_JG_eq (d : Disasm) (f : function) (term : instruction) (off : Int)
    (s : TransState) (bT bF : SrcBlock)
    (hop : term.op = .JG) (h0 : argN term 0 = .rel off)
    (hT : lookupA f.blocks (term.addr + (term.len : Int) + off) = some bT)
    (hF : lookupA f.blocks (term.addr + (term.len : Int)) = some bF) :
    termCondBranch d f term s =
      ({s with status := statusAfter (statusAfter (statusAfter s.status .SF) .OF) .ZF,
               nextId := s.nextId + 6,
               insts := s.insts ++
                 [(s.nextId, .load (.statusCell .SF)),
                  (s.nextId + 1, .load (.statusCell .OF)),
                  (s.nextId + 2, .load (.statusCell .ZF)),
                  (s.nextId + 3, .icmp .eq (.inst (s.nextId + 2)) falseConst),
                  (s.nextId + 4, .icmp .eq (.inst s.nextId) (.inst (s.nextId + 1))),
                  (s.nextId + 5, .and (.inst (s.nextId + 3)) (.inst (s.nextId + 4)))],
               term := some (.condbr (.inst (s.nextId + 5))
                 (term.addr + (term.len : Int) + off) (term.addr + (term.len : Int)))},
       .ok ()) := by
  simp only [termCondBranch, h0, getAddrs, hop, hT, hF, run_bind, useStatus_eq, emit_eq,
    emitTerm_eq]
  simp [List.append_assoc, Nat.add_assoc]

/-- Run of `termCondBranch` on a JNE ("jump if not equal") terminator
whose two targets resolve: loads ZF, emits `icmp eq` of it with the false
constant, and terminates with the conditional branch. -/
theorem termCondBranch_JNE_eq (d : Disasm) (f : function) (term : instruction) (off : Int)
    (s : TransState) (bT bF : SrcBlock)
    (hop : term.op = .JNE) (h0 : argN term 0 = .rel off)
    (hT : lookupA f.blocks (term.addr + (term.len : Int) + off) = some bT)
    (hF : lookupA f.blocks (term.addr + (term.len : Int)) = some bF) :
    termCondBranch d f term s =
      ({s with status := statusAfter s.status .ZF,
               nextId := s.nextId + 2,
               insts := s.insts ++
                 [(s.nextId, .load (.statusCell .ZF)),
                  (s.nextId + 1, .icmp .eq (.inst s.nextId) falseConst)],
               term := some (.condbr (.inst (s.nextId + 1))
                 (term.addr + (term.len : Int) + off) (term.addr + (term.len : Int)))},
       .ok ()) := by
  simp only [termCondBranch, h0, getAddrs, hop, hT, hF, run_bind, useStatus_eq, emit_eq,
    emitTerm_eq]
  simp [List.append_assoc, Nat.add_assoc]

/-- Run of `termCondBranch` when the true target names no known block. -/
theorem termCondBranch_trueMissing_eq (d : Disasm) (f : function) (term : instruction)
    (off : Int) (s : TransState) (h0 : argN term 0 = .rel off)
    (hT : lookupA f.blocks (term.addr + (term.len : Int) + off) = Option.none) :
    termCondBranch d f term s =
      (s, .error (.goError (.unableToLocateBlock (term.addr + (term.len : Int) + off)))) := by
  simp only [termCondBranch, h0, getAddrs, hT]; rfl

/-- Run of `termCondBranch` when the true target resolves but the false
(fallthrough) target names no known block; the reported address is the
true-target address, as in the source. -/
theorem termCondBranch_falseMissing_eq (d : Disasm) (f : function) (term : instruction)
    (off : Int) (s : TransState) (bT : SrcBlock) (h0 : argN term 0 = .rel off)
    (hT : lookupA f.blocks (term.addr + (term.len : Int) + off) = some bT)
    (hF : lookupA f.blocks (term.addr + (term.len : Int)) = Option.none) :
    termCondBranch d f term s =
      (s, .error (.goError (.unableToLocateBlock (term.addr + (term.len : Int) + off)))) := by
  simp only [termCondBranch, h0, getAddrs, hT, hF]; rfl

/-- Run of `termRET` in a non-void function: load EAX and return it. -/
theorem termRET_nonvoid_eq (d : Disasm) (f : function) (term : instruction) (s : TransState)
    (h : f.retTy.isVoid = false) :
    termRET d f term s =
      ({s with regs := regAfter s.regs EAX,
               nextId := s.nextId + 1,
               insts := s.insts ++ [(s.nextId, .load (.regCell EAX))],
               term := some (.ret (some (.inst s.nextId)))},
       .ok ()) := by
  simp only [termRET, h, Bool.false_eq_true, not_false_eq_true, if_true, run_bind,
    useArg_reg_eq d f Option.none EAX regType_EAX_isSome, emitTerm_eq]

/-- Run of `termRET` in a void function: return with no value. -/
theorem termRET_void_eq (d : Disasm) (f : function) (term : instruction) (s : TransState)
    (h : f.retTy.isVoid = true) :
    termRET d f term s = ({s with term := some (.ret Option.none)}, .ok ()) := by
  simp only [termRET, h, not_true, if_false, emitTerm_eq]

/-- C5: translating a compare instruction with register operands `rx` and
`ry` emits exactly the two operand loads, an `icmp eq` stored into the
zero-flag cell and an `icmp slt` stored into the sign-flag cell — so it
writes neither operand and stores nothing into the carry, parity,
auxiliary-carry or overflow flag cells. -/
theorem c5_cmp_flag_semantics (d : Disasm) (f : function) (inst : instruction)
    (rx ry : Reg) (s : TransState)
    (h0 : argN inst 0 = .reg rx) (h1 : argN inst 1 = .reg ry)
    (hrx : (regType rx).isSome = true) (hry : (regType ry).isSome = true) :
    instCMP d f inst s =
      ({s with regs := regAfter (regAfter s.regs rx) ry,
               status := statusAfter (statusAfter s.status .ZF) .SF,
               nextId := s.nextId + 6,
               insts := s.insts ++
                 [(s.nextId, .load (.regCell rx)),
                  (s.nextId + 1, .load (.regCell ry)),
                  (s.nextId + 2, .icmp .eq (.inst s.nextId) (.inst (s.nextId + 1))),
                  (s.nextId + 3, .store (.inst (s.nextId + 2)) (.statusCell .ZF)),
                  (s.nextId + 4, .icmp .slt (.inst s.nextId) (.inst (s.nextId + 1))),
                  (s.nextId + 5, .store (.inst (s.nextId + 4)) (.statusCell .SF))]},
       .ok ()) := by
  simp only [instCMP, h0, h1, run_bind, useArg_reg_eq d f (some inst) rx hrx,
    useArg_reg_eq d f (some inst) ry hry, updateStatusFlags, emit_eq, defStatus_eq]
  simp [List.append_assoc, Nat.add_assoc]

/-- Witness for C5: `CMP EAX, ECX` translated from the fresh state. -/
theorem c5_witness :
    instCMP exD exF exCMP initState =
      ({initState with
          regs := regAfter (regAfter initState.regs EAX) ECX,
          status := statusAfter (statusAfter initState.status .ZF) .SF,
          nextId := initState.nextId + 6,
          insts := initState.insts ++
                 [(initState.nextId, .load (.regCell EAX)),
                  (initState.nextId + 1, .load (.regCell ECX)),
                  (initState.nextId + 2,
                    .icmp .eq (.inst initState.nextId) (.inst (initState.nextId + 1))),
                  (initState.nextId + 3,
                    .store (.inst (initState.nextId + 2)) (.statusCell .ZF)),
                  (initState.nextId + 4,
                    .icmp .slt (.inst initState.nextId) (.inst (initState.nextId + 1))),
                  (initState.nextId + 5,
                    .store (.inst (initState.nextId + 4)) (.statusCell .SF))]},
       .ok ()) :=
  c5_cmp_flag_semantics exD exF exCMP EAX ECX initState rfl rfl rfl rfl

/-- C3: for a conditional-branch terminator at address `a` with encoded
length `L` and relative operand `off`, the true target is `a + L + off`
and the false target is `a + L`; both must name known blocks or the block
fails with a recoverable error; the emitted condition tests `ZF = false`
for JNE, `(ZF = false) and (SF = OF)` for JG, and `SF ≠ OF` for JL. -/
theorem c3_condBranch_targets_and_conditions :
    (∀ (d : Disasm) (f : function) (term : instruction) (off : Int) (s : TransState)
       (bT bF : SrcBlock), term.op = .JNE → argN term 0 = .rel off →
       lookupA f.blocks (term.addr + (term.len : Int) + off) = some bT →
       lookupA f.blocks (term.addr + (term.len : Int)) = some bF →
       termCondBranch d f term s =
         ({s with status := statusAfter s.status .ZF,
                  nextId := s.nextId + 2,
                  insts := s.insts ++
                    [(s.nextId, .load (.statusCell .ZF)),
                     (s.nextId + 1, .icmp .eq (.inst s.nextId) falseConst)],
                  term := some (.condbr (.inst (s.nextId + 1))
                    (term.addr + (term.len : Int) + off) (term.addr + (term.len : Int)))},
          .ok ())) ∧
    (∀ (d : Disasm) (f : function) (term : instruction) (off : Int) (s : TransState)
       (bT bF : SrcBlock), term.op = .JG → argN term 0 = .rel off →
       lookupA f.blocks (term.addr + (term.len : Int) + off) = some bT →
       lookupA f.blocks (term.addr + (term.len : Int)) = some bF →
       termCondBranch d f term s =
         ({s with status := statusAfter (statusAfter (statusAfter s.status .SF) .OF) .ZF,
                  nextId := s.nextId + 6,
                  insts := s.insts ++
                    [(s.nextId, .load (.statusCell .SF)),
                     (s.nextId + 1, .load (.statusCell .OF)),
                     (s.nextId + 2, .load (.statusCell .ZF)),
                     (s.nextId + 3, .icmp .eq (.inst (s.nextId + 2)) falseConst),
                     (s.nextId + 4, .icmp .eq (.inst s.nextId) (.inst (s.nextId + 1))),
                     (s.nextId + 5, .and (.inst (s.nextId + 3)) (.inst (s.nextId + 4)))],
                  term := some (.condbr (.inst (s.nextId + 5))
                    (term.addr + (term.len : Int) + off) (term.addr + (term.len : Int)))},
          .ok ())) ∧
    (∀ (d : Disasm) (f : function) (term : instruction) (off : Int) (s : TransState)
       (bT bF : SrcBlock), term.op = .JL → argN term 0 = .rel off →
       lookupA f.blocks (term.addr + (term.len : Int) + off) = some bT →
       lookupA f.blocks (term.addr + (term.len : Int)) = some bF →
       termCondBranch d f term s =
         ({s with status := statusAfter (statusAfter s.status .SF) .OF,
                  nextId := s.nextId + 3,
                  insts := s.insts ++
                    [(s.nextId, .load (.statusCell .SF)),
                     (s.nextId + 1, .load (.statusCell .OF)),
                     (s.nextId + 2, .icmp .ne (.inst s.nextId) (.inst (s.nextId + 1)))],
                  term := some (.condbr (.inst (s.nextId + 2))
                    (term.addr + (term.len : Int) + off) (term.addr + (term.len : Int)))},
          .ok ())) ∧
    (∀ (d : Disasm) (f : function) (term : instruction) (off : Int) (s : TransState),
       argN term 0 = .rel off →
       lookupA f.blocks (term.addr + (term.len : Int) + off) = Option.none →
       termCondBranch d f term s =
         (s, .error (.goError (.unableToLocateBlock
           (term.addr + (term.len : Int) + off))))) ∧
    (∀ (d : Disasm) (f : function) (term : instruction) (off : Int) (s : TransState)
       (bT : SrcBlock), argN term 0 = .rel off →
       lookupA f.blocks (term.addr + (term.len : Int) + off) = some bT →
       lookupA f.blocks (term.addr + (term.len : Int)) = Option.none →
       termCondBranch d f term s =
         (s, .error (.goError (.unableToLocateBlock
           (term.addr + (term.len : Int) + off))))) :=
  ⟨fun d f term off s bT bF hop h0 hT hF =>
     termCondBranch_JNE_eq d f term off s bT bF hop h0 hT hF,
   fun d f term off s bT bF hop h0 hT hF =>
     termCondBranch_JG_eq d f term off s bT bF hop h0 hT hF,
   fun d f term off s bT bF hop h0 hT hF =>
     termCondBranch_JL_eq d f term off s bT bF hop h0 hT hF,
   fun d f term off s h0 hT => termCondBranch_trueMissing_eq d f term off s h0 hT,
   fun d f term off s bT h0 hT hF => termCondBranch_falseMissing_eq d f term off s bT h0 hT hF⟩

/-- Witness for C3: the JNE branch at address 5 (length 2, relative 5)
in the two-block fixture, plus its unresolved-target failure cases. -/
theorem c3_witness :
    termCondBranch exD exFBr exJNE initState =
      ({initState with
          status := statusAfter initState.status .ZF,
          nextId := initState.nextId + 2,
          insts := initState.insts ++
            [(initState.nextId, .load (.statusCell .ZF)),
             (initState.nextId + 1, .icmp .eq (.inst initState.nextId) falseConst)],
          term := some (.condbr (.inst (initState.nextId + 1))
            (exJNE.addr + (exJNE.len : Int) + 5) (exJNE.addr + (exJNE.len : Int)))},
       .ok ()) ∧
    termCondBranch exD exFBr exJNEFar initState =
      (initState, .error (.goError (.unableToLocateBlock
        (exJNEFar.addr + (exJNEFar.len : Int) + 100)))) ∧
    termCondBranch exD exFBr1 exJNE initState =
      (initState, .error (.goError (.unableToLocateBlock
        (exJNE.addr + (exJNE.len : Int) + 5)))) :=
  ⟨c3_condBranch_targets_and_conditions.1 exD exFBr exJNE 5 initState exBlkA exBlkB
     rfl rfl rfl rfl,
   c3_condBranch_targets_and_conditions.2.2.2.1 exD exFBr exJNEFar 100 initState rfl rfl,
   c3_condBranch_targets_and_conditions.2.2.2.2 exD exFBr1 exJNE 5 initState exBlkA
     rfl rfl rfl⟩

/-- C9: a "jump if less" or "jump if greater" branch whose targets resolve
never fails, even when the overflow flag's cell was never initialized: the
flag cell is created on first read and the emitted condition loads from
it. -/
theorem c9_uninitialized_overflow_flag_ok (d : Disasm) (f : function) (term : instruction)
    (off : Int) (s : TransState) (bT bF : SrcBlock)
    (h0 : argN term 0 = .rel off)
    (hT : lookupA f.blocks (term.addr + (term.len : Int) + off) = some bT)
    (hF : lookupA f.blocks (term.addr + (term.len : Int)) = some bF)
    (hOF : StatusFlag.OF ∉ s.status)
    (hop : term.op = .JL ∨ term.op = .JG) :
    ∃ s', termCondBranch d f term s = (s', .ok ()) ∧
      StatusFlag.OF ∈ s'.status ∧
      ∃ id, (id, Inst.load (.statusCell .OF)) ∈ s'.insts := by
  rcases hop with hop | hop
  · refine ⟨_, termCondBranch_JL_eq d f term off s bT bF hop h0 hT hF, ?_, ?_⟩
    · exact mem_statusAfter_self _ _
    · exact ⟨s.nextId + 1, by simp⟩
  · refine ⟨_, termCondBranch_JG_eq d f term off s bT bF hop h0 hT hF, ?_, ?_⟩
    · exact mem_statusAfter_of_mem (mem_statusAfter_self _ _)
    · exact ⟨s.nextId + 1, by simp⟩

/-- Witness for C9: the JL branch of the two-block fixture, translated
from the fresh state (whose flag-cell map is empty). -/
theorem c9_witness :
    ∃ s', termCondBranch exD exFBr exJL initState = (s', .ok ()) ∧
      StatusFlag.OF ∈ s'.status ∧
      ∃ id, (id, Inst.load (.statusCell .OF)) ∈ s'.insts :=
  c9_uninitialized_overflow_flag_ok exD exFBr exJL 5 initState exBlkA exBlkB
    rfl rfl rfl (by simp [initState]) (Or.inl rfl)

/-- C6: a return terminator of a non-void function loads the EAX cell and
returns it, of a void function returns nothing; an unconditional jump
recognized as a tail call is translated exactly as the CALL translation
followed by that same return synthesis, and any other unconditional jump
is a fatal unsupported-terminator abort. -/
theorem c6_ret_and_tailcall :
    (∀ (d : Disasm) (f : function) (term : instruction) (s : TransState),
       f.retTy.isVoid = false →
       termRET d f term s =
         ({s with regs := regAfter s.regs EAX,
                  nextId := s.nextId + 1,
                  insts := s.insts ++ [(s.nextId, .load (.regCell EAX))],
                  term := some (.ret (some (.inst s.nextId)))},
          .ok ())) ∧
    (∀ (d : Disasm) (f : function) (term : instruction) (s : TransState),
       f.retTy.isVoid = true →
       termRET d f term s = ({s with term := some (.ret Option.none)}, .ok ())) ∧
    (∀ (d : Disasm) (f : function) (term : instruction) (s : TransState),
       d.tailCall f.entry term = true →
       termJMP d f term s = (instCALL d f term >>= fun _ => termRET d f term) s) ∧
    (∀ (d : Disasm) (f : function) (term : instruction) (s : TransState),
       d.tailCall f.entry term = false →
       termJMP d f term s = (s, .error (.goPanic (.unsupportedTerminator .JMP)))) := by
  refine ⟨fun d f term s h => termRET_nonvoid_eq d f term s h,
          fun d f term s h => termRET_void_eq d f term s h,
          fun d f term s h => ?_,
          fun d f term s h => ?_⟩
  · simp only [termJMP, h]; rfl
  · simp only [termJMP, h]; rfl

/-- Witness for C6: the non-void and void returns, the tail-call jump and
the unsupported jump, each at a concrete fixture. -/
theorem c6_witness :
    termRET exD exF32 exRET initState =
      ({initState with
          regs := regAfter initState.regs EAX,
          nextId := initState.nextId + 1,
          insts := initState.insts ++ [(initState.nextId, .load (.regCell EAX))],
          term := some (.ret (some (.inst initState.nextId)))},
       .ok ()) ∧
    termRET exD exF exRET initState =
      ({initState with term := some (.ret Option.none)}, .ok ()) ∧
    termJMP exDTail exF exRET initState =
      (instCALL exDTail exF exRET >>= fun _ => termRET exDTail exF exRET) initState ∧
    termJMP exD exF exRET initState =
      (initState, .error (.goPanic (.unsupportedTerminator .JMP))) :=
  ⟨c6_ret_and_tailcall.1 exD exF32 exRET initState rfl,
   c6_ret_and_tailcall.2.1 exD exF exRET initState rfl,
   c6_ret_and_tailcall.2.2.1 exDTail exF exRET initState rfl,
   c6_ret_and_tailcall.2.2.2 exD exF exRET initState rfl⟩

/-- C8: translating a function whose block map is empty fails with the
"missing function body" error and leaves the state — in particular the
emitted body — untouched. -/
theorem c8_empty_blocks_missing_body (d : Disasm) (f : function) (s : TransState)
    (h : f.blocks = []) :
    translateFunc d f s = (s, .error (.goError .missingFunctionBody)) := by
  unfold translateFunc
  rw [h]
  rfl

/-- Witness for C8: the block-less fixture function. -/
theorem c8_witness :
    translateFunc exD exF initState = (initState, .error (.goError .missingFunctionBody)) :=
  c8_empty_blocks_missing_body exD exF initState rfl

/-- Counterexample to C1 as stated: a write to an immediate operand is a
fatal panic, not a recoverable error value. -/
theorem c1_counterexample :
    defArg exD exF Option.none (.imm 5) (.constInt 0 .i32) initState =
      (initState, .error (.goPanic .unsupportedArgType)) ∧
    (TransErr.goPanic .unsupportedArgType).isRecoverable = false :=
  ⟨rfl, rfl⟩

/-- C1 (amended): an unresolvable branch target is a recoverable error
value carrying the unresolved address; an empty function body and an
invalid callee type are recoverable error values (without an address
context); an unresolvable global address and a write to an immediate or
relative operand abort fatally (a panic, not a recoverable error), the
former carrying the address being resolved. -/
theorem c1_structural_failure_classification :
    (∀ (d : Disasm) (f : function) (term : instruction) (off : Int) (s : TransState),
       argN term 0 = .rel off →
       lookupA f.blocks (term.addr + (term.len : Int) + off) = Option.none →
       ∃ e : TransErr, termCondBranch d f term s = (s, .error e) ∧
         e.isRecoverable = true ∧
         e.addrContext = some (term.addr + (term.len : Int) + off)) ∧
    (∀ (d : Disasm) (f : function) (s : TransState), f.blocks = [] →
       ∃ e : TransErr, translateFunc d f s = (s, .error e) ∧
         e.isRecoverable = true ∧ e.addrContext = Option.none) ∧
    (∀ (d : Disasm) (f : function) (inst : instruction) (v : Int) (s : TransState),
       argN inst 0 = .imm v →
       ∃ e : TransErr, instCALL d f inst s = (s, .error e) ∧
         e.isRecoverable = true ∧ e.addrContext = Option.none) ∧
    (∀ (d : Disasm) (f : function) (oi : Option instruction) (v : Int) (w : Value)
       (s : TransState),
       ∃ e : TransErr, defArg d f oi (.imm v) w s = (s, .error e) ∧
         e.isRecoverable = false) ∧
    (∀ (d : Disasm) (f : function) (oi : Option instruction) (off : Int) (w : Value)
       (s : TransState),
       ∃ e : TransErr, defArg d f oi (.rel off) w s = (s, .error e) ∧
         e.isRecoverable = false) ∧
    (∀ (d : Disasm) (f : function) (addr : Addr) (s : TransState), d.globals = [] →
       ∃ e : TransErr, global d f addr s = (s, .error e) ∧
         e.isRecoverable = false ∧ e.addrContext = some addr) := by
  refine ⟨fun d f term off s h0 hT =>
            ⟨.goError (.unableToLocateBlock (term.addr + (term.len : Int) + off)),
             termCondBranch_trueMissing_eq d f term off s h0 hT, rfl, rfl⟩,
          fun d f s h => ⟨.goError .missingFunctionBody, ?_, rfl, rfl⟩,
          fun d f inst v s h0 => ⟨.goError .invalidCalleeType, ?_, rfl, rfl⟩,
          fun d f oi v w s => ⟨.goPanic .unsupportedArgType, rfl, rfl⟩,
          fun d f oi off w s => ⟨.goPanic .unsupportedArgType, rfl, rfl⟩,
          fun d f addr s h => ⟨.goPanic (.unableToLocateGlobal addr), ?_, rfl, rfl⟩⟩
  · unfold translateFunc; rw [h]; rfl
  · simp only [instCALL, h0]; rfl
  · unfold global; simp only [h]; rfl

/-- Witness for C1 (amended): each failure class exercised at a concrete
fixture. -/
theorem c1_witness :
    (∃ e : TransErr, termCondBranch exD exFBr exJNEFar initState =
       (initState, .error e) ∧ e.isRecoverable = true ∧
       e.addrContext = some (exJNEFar.addr + (exJNEFar.len : Int) + 100)) ∧
    (∃ e : TransErr, translateFunc exD exF initState = (initState, .error e) ∧
       e.isRecoverable = true ∧ e.addrContext = Option.none) ∧
    (∃ e : TransErr, instCALL exD exF exCALLImm initState = (initState, .error e) ∧
       e.isRecoverable = true ∧ e.addrContext = Option.none) ∧
    (∃ e : TransErr, defArg exD exF Option.none (.imm 5) (.constInt 0 .i32) initState =
       (initState, .error e) ∧ e.isRecoverable = false) ∧
    (∃ e : TransErr, defArg exD exF Option.none (.rel 5) (.constInt 0 .i32) initState =
       (initState, .error e) ∧ e.isRecoverable = false) ∧
    (∃ e : TransErr, global exD exF 77 initState = (initState, .error e) ∧
       e.isRecoverable = false ∧ e.addrContext = some 77) :=
  ⟨c1_structural_failure_classification.1 exD exFBr exJNEFar 100 initState rfl rfl,
   c1_structural_failure_classification.2.1 exD exF initState rfl,
   c1_structural_failure_classification.2.2.1 exD exF exCALLImm 5 initState rfl,
   c1_structural_failure_classification.2.2.2.1 exD exF Option.none 5
     (.constInt 0 .i32) initState,
   c1_structural_failure_classification.2.2.2.2.1 exD exF Option.none 5
     (.constInt 0 .i32) initState,
   c1_structural_failure_classification.2.2.2.2.2 exD exF 77 initState rfl⟩

/-- `lookupA` misses exactly the addresses that are not keys. -/
theorem lookupA_eq_none_of_not_mem {α : Type} {l : List (Addr × α)} {a : Addr}
    (h : a ∉ l.map Prod.fst) : lookupA l a = Option.none := by
  induction l with
  | nil => rfl
  | cons p rest ih =>
    obtain ⟨b, y⟩ := p
    simp only [List.map_cons, List.mem_cons, not_or] at h
    unfold lookupA
    rw [if_neg fun he => h.1 he.symm]
    exact ih h.2

/-- With unique keys, `lookupA` finds exactly the paired value. -/
theorem lookupA_eq_some_of_mem {α : Type} {l : List (Addr × α)}
    (hnd : (l.map Prod.fst).Nodup) {a : Addr} {x : α} (hmem : (a, x) ∈ l) :
    lookupA l a = some x := by
  induction l with
  | nil => cases hmem
  | cons p rest ih =>
    obtain ⟨b, y⟩ := p
    rw [List.map_cons, List.nodup_cons] at hnd
    rcases List.mem_cons.mp hmem with he | hm
    · rw [Prod.mk.injEq] at he
      unfold lookupA
      rw [if_pos he.1.symm]
      rw [he.2]
    · unfold lookupA
      by_cases hba : b = a
      · subst hba
        exact absurd (List.mem_map_of_mem Prod.fst hm) hnd.1
      · rw [if_neg hba]
        exact ih hnd.2 hm

/-- A `≤`-sorted list with no duplicates is `<`-sorted. -/
theorem sorted_lt_of_sorted_le_nodup {l : List Addr}
    (hs : l.Sorted (· ≤ ·)) (hnd : l.Nodup) : l.Sorted (· < ·) := by
  induction l with
  | nil => simp
  | cons a rest ih =>
    rw [List.sorted_cons] at hs ⊢
    rw [List.nodup_cons] at hnd
    refine ⟨fun b hb => lt_of_le_of_ne (hs.1 b hb) fun he => hnd.1 (he ▸ hb), ih hs.2 hnd.2⟩

/-- In a strictly sorted list containing `start`, when every element not
above `addr` is also not above `start` and `start ≤ addr`, the first
index whose element exceeds `addr` is the index right after `start`. -/
theorem findIdx_of_greatest {l : List Addr} (hsl : l.Sorted (· < ·))
    {start addr : Addr} (hmem : start ∈ l) (hle : start ≤ addr)
    (hgr : ∀ a ∈ l, a ≤ addr → a ≤ start) :
    ∃ i : Nat, i < l.length ∧ l.getD i 0 = start ∧
      l.findIdx (fun a => decide (addr < a)) = i + 1 := by
  induction l with
  | nil => cases hmem
  | cons x rest ih =>
    rw [List.sorted_cons] at hsl
    by_cases hx : x = start
    · subst hx
      refine ⟨0, by simp, rfl, ?_⟩
      rw [List.findIdx_cons]
      have hnlt : ¬ addr < x := not_lt.mpr hle
      simp only [hnlt, decide_False, cond_false, Nat.add_left_inj]
      cases rest with
      | nil => rfl
      | cons y rest2 =>
        rw [List.findIdx_cons]
        have hy : addr < y := by
          by_contra hny
          push_neg at hny
          have h1 := hgr y (by simp) hny
          have h2 : x < y := hsl.1 y (by simp)
          exact absurd h1 (not_le.mpr h2)
        simp [hy]
    · have hmem' : start ∈ rest := by
        rcases List.mem_cons.mp hmem with h | h
        · exact absurd h.symm hx
        · exact h
      have hxstart : x < start := hsl.1 start hmem'
      have hxaddr : ¬ addr < x := not_lt.mpr (le_trans (le_of_lt hxstart) hle)
      obtain ⟨i, hlen, hget, hidx⟩ :=
        ih hsl.2 hmem' fun a ha hale => hgr a (List.mem_cons_of_mem x ha) hale
      refine ⟨i + 1, by simp; omega, ?_, ?_⟩
      · rw [List.getD_cons_succ]
        exact hget
      · rw [List.findIdx_cons]
        simp only [hxaddr, hidx]
        rfl

/-- The array loop of `getElementPtr` stops after exactly `k` elements
when the remaining offset is `k` whole elements and `k` is in range. -/
theorem arrLoop_exact {s : Int} (hs : 0 < s) :
    ∀ k r : Nat, k < r → ∀ (j : Nat) (total : Int),
      arrLoop s (total + (k : Int) * s) r j total = (j + k, total + (k : Int) * s) := by
  intro k
  induction k with
  | zero =>
    intro r hr j total
    cases r with
    | zero => omega
    | succ r' =>
      unfold arrLoop
      rw [if_pos (by push_cast; linarith)]
      simp
  | succ k ih =>
    intro r hr j total
    cases r with
    | zero => omega
    | succ r' =>
      unfold arrLoop
      rw [if_neg (by push_cast; nlinarith)]
      have hre : total + ((k : Int) + 1) * s = (total + s) + (k : Int) * s := by ring
      push_cast
      rw [hre, ih r' (by omega) (j + 1) (total + s)]
      refine Prod.ext ?_ rfl
      simp
      omega

/-- The element walk exits immediately once the accumulated offset has
reached the target. -/
theorem gepWalk_done (e : Ty) (total offset : Int) (indices : List Int)
    (h : total ≥ offset) : gepWalk e total offset indices = .ok indices := by
  cases e <;> (rw [gepWalk]; rw [if_pos h]) <;> (intros; simp_all)

/-- The element walk of `getElementPtr`, entered on an array type at a
whole-element offset `k*s` (`1 ≤ k < n`), produces exactly the structural
index `k`. -/
theorem gepWalk_arr_exact {t : Ty} (hs : 0 < sizeOfType t) {n k : Nat}
    (hk1 : 1 ≤ k) (hkn : k < n) :
    gepWalk (.arr n t) 0 ((k : Int) * sizeOfType t) [0] = .ok [0, (k : Int)] := by
  have hpos : (0 : Int) < (k : Int) * sizeOfType t :=
    mul_pos (by exact_mod_cast hk1) hs
  rw [gepWalk]
  rw [if_neg (not_le.mpr hpos)]
  have harr := arrLoop_exact hs k n hkn 0 0
  rw [zero_add] at harr
  simp only [harr, zero_add]
  rw [gepWalk_done t _ _ _ le_rfl]
  rfl

/-- `global` on an address that is not an exact key: the binary search
selects the greatest known start address not above the queried address,
and resolution proceeds exactly when the address falls inside that
global's type. -/
theorem global_binsearch_eq (d : Disasm) (f : function) (s : TransState)
    (start addr : Addr) (ty : Ty)
    (hnd : (d.globals.map Prod.fst).Nodup)
    (hmem : (start, ty) ∈ d.globals)
    (hnk : addr ∉ d.globals.map Prod.fst)
    (hle : start ≤ addr)
    (hgr : ∀ a ∈ d.globals.map Prod.fst, a ≤ addr → a ≤ start) :
    global d f addr s =
      if start ≤ addr ∧ addr < start + sizeOfType ty then
        getElementPtr (.global start) (.ptr ty) (addr - start) s
      else (s, .error (.goPanic (.unableToLocateGlobal addr))) := by
  have hperm := List.perm_insertionSort (α := Addr) (· ≤ ·) (d.globals.map Prod.fst)
  have hsorted : (List.insertionSort (· ≤ ·) (d.globals.map Prod.fst)).Sorted (· ≤ ·) :=
    List.sorted_insertionSort _ _
  have hnd' : (List.insertionSort (· ≤ ·) (d.globals.map Prod.fst)).Nodup :=
    hperm.symm.nodup hnd
  have hsl := sorted_lt_of_sorted_le_nodup hsorted hnd'
  have hmemgl : start ∈ List.insertionSort (· ≤ ·) (d.globals.map Prod.fst) :=
    hperm.mem_iff.mpr (List.mem_map_of_mem Prod.fst hmem)
  have hgr' : ∀ a ∈ List.insertionSort (· ≤ ·) (d.globals.map Prod.fst),
      a ≤ addr → a ≤ start := fun a ha => hgr a (hperm.mem_iff.mp ha)
  obtain ⟨i, hlen, hget, hidx⟩ := findIdx_of_greatest hsl hmemgl hle hgr'
  have hlook := lookupA_eq_some_of_mem hnd hmem
  simp only [global, lookupA_eq_none_of_not_mem hnk, hidx, Nat.add_sub_cancel, hget,
    hlook, hlen, Nat.le_add_left, true_and, and_true, if_true]
  by_cases hc : start ≤ addr ∧ addr < start + sizeOfType ty
  · rw [if_pos hc, if_pos hc]
  · rw [if_neg hc, if_neg hc]
    rfl

/-- Counterexample to C2 as stated: at `k = 0` the queried address is the
global's own start address, which hits the exact-match early return — the
global is returned directly and no element-path (no `gep` with indices
`[0, 0]`) is produced. -/
theorem c2_counterexample :
    global exDArr exF 16 initState = (initState, .ok (.global 16)) ∧
    (global exDArr exF 16 initState).1.insts = [] :=
  ⟨rfl, rfl⟩

/-- C2 (amended): for a global of array type `T[n]` (`n ≥ 1`, element size
`s > 0`) whose neighbourhood is key-free above its start, resolving
`start + k*s` for `1 ≤ k < n` emits exactly one element pointer with path
`[0, k]`; resolving `start + n*s` fails with the "unable to locate global
variable" condition; and resolving `start` itself (the `k = 0` case) hits
the exact-match early return and yields the global directly with no
element path.  The binary search otherwise picks the greatest known start
address not above the queried address (`global_binsearch_eq`). -/
theorem c2_global_array_indexing (d : Disasm) (f : function) (s : TransState)
    (start : Addr) (n : Nat) (t : Ty)
    (hmem : (start, Ty.arr n t) ∈ d.globals)
    (hnd : (d.globals.map Prod.fst).Nodup)
    (hs : 0 < sizeOfType t)
    (hn : 0 < n)
    (hsep : ∀ a ∈ d.globals.map Prod.fst,
      a ≤ start + (n : Int) * sizeOfType t → a ≤ start) :
    (∀ k : Nat, 1 ≤ k → k < n →
      global d f (start + (k : Int) * sizeOfType t) s =
        ({s with nextId := s.nextId + 1,
                 insts := s.insts ++
                   [(s.nextId, .gep (.global start) [0, (k : Int)])]},
         .ok (.inst s.nextId))) ∧
    global d f (start + (n : Int) * sizeOfType t) s =
      (s, .error (.goPanic (.unableToLocateGlobal
        (start + (n : Int) * sizeOfType t)))) ∧
    global d f start s = (s, .ok (.global start)) := by
  have hsize : sizeOfType (Ty.arr n t) = (n : Int) * sizeOfType t := rfl
  refine ⟨?_, ?_, ?_⟩
  · intro k hk1 hkn
    have hks_pos : (0 : Int) < (k : Int) * sizeOfType t :=
      mul_pos (by exact_mod_cast hk1) hs
    have hks_lt : (k : Int) * sizeOfType t < (n : Int) * sizeOfType t :=
      mul_lt_mul_of_pos_right (by exact_mod_cast hkn) hs
    set addr := start + (k : Int) * sizeOfType t with haddr
    have hnk : addr ∉ d.globals.map Prod.fst := by
      intro hin
      have := hsep addr hin (by rw [haddr]; linarith)
      rw [haddr] at this
      linarith
    have hle : start ≤ addr := by rw [haddr]; linarith
    have hgr : ∀ a ∈ d.globals.map Prod.fst, a ≤ addr → a ≤ start := by
      intro a ha hale
      refine hsep a ha ?_
      rw [haddr] at hale
      linarith
    rw [global_binsearch_eq d f s start addr (Ty.arr n t) hnd hmem hnk hle hgr]
    rw [if_pos ⟨hle, by rw [hsize, haddr]; linarith⟩]
    have hoff : addr - start = (k : Int) * sizeOfType t := by rw [haddr]; ring
    rw [hoff]
    have hge : ¬ ((0 : Int) ≥ (k : Int) * sizeOfType t) := not_le.mpr hks_pos
    simp only [getElementPtr]
    rw [if_neg hge]
    rw [gepWalk_arr_exact hs hk1 hkn]
    rfl
  · have hns_pos : (0 : Int) < (n : Int) * sizeOfType t :=
      mul_pos (by exact_mod_cast hn) hs
    set addr := start + (n : Int) * sizeOfType t with haddr
    have hnk : addr ∉ d.globals.map Prod.fst := by
      intro hin
      have := hsep addr hin (le_refl _)
      rw [haddr] at this
      linarith
    have hle : start ≤ addr := by rw [haddr]; linarith
    rw [global_binsearch_eq d f s start addr (Ty.arr n t) hnd hmem hnk hle hsep]
    rw [if_neg]
    rintro ⟨h1, h2⟩
    rw [hsize, haddr] at h2
    exact absurd h2 (lt_irrefl _)
  · unfold global
    rw [lookupA_eq_some_of_mem hnd hmem]
    rfl

/-- Witness for C2 (amended): the 4-element `i32` array at address 16. -/
theorem c2_witness :
    (∀ k : Nat, 1 ≤ k → k < 4 →
      global exDArr exF (16 + (k : Int) * sizeOfType Ty.i32) initState =
        ({initState with
            nextId := initState.nextId + 1,
            insts := initState.insts ++
              [(initState.nextId, .gep (.global 16) [0, (k : Int)])]},
         .ok (.inst initState.nextId))) ∧
    global exDArr exF (16 + (4 : Int) * sizeOfType Ty.i32) initState =
      (initState, .error (.goPanic (.unableToLocateGlobal
        (16 + (4 : Int) * sizeOfType Ty.i32)))) ∧
    global exDArr exF 16 initState = (initState, .ok (.global 16)) :=
  c2_global_array_indexing exDArr exF initState 16 4 Ty.i32
    (List.mem_cons_self _ _) (by simp [exDArr]) (by decide) (by decide)
    (by rintro a ha _; simp [exDArr] at ha; subst ha; exact le_refl _)

/-- `TransM.pure` accumulates. -/
theorem accum_pure (a : α) : Accum (TransM.pure a) := fun s =>
  ⟨List.Subset.refl _, List.Subset.refl _, rfl⟩

/-- `throwT` accumulates (the state is returned untouched). -/
theorem accum_throwT (e : TransErr) : Accum (throwT (α := α) e) := fun s =>
  ⟨List.Subset.refl _, List.Subset.refl _, rfl⟩

/-- `getS` accumulates. -/
theorem accum_getS : Accum getS := fun s =>
  ⟨List.Subset.refl _, List.Subset.refl _, rfl⟩

/-- `emit` accumulates. -/
theorem accum_emit (i : Inst) : Accum (emit i) := fun s =>
  ⟨List.Subset.refl _, List.Subset.refl _, rfl⟩

/-- `emitTerm` accumulates. -/
theorem accum_emitTerm (t : Term) : Accum (emitTerm t) := fun s =>
  ⟨List.Subset.refl _, List.Subset.refl _, rfl⟩

/-- The block-buffer reset of `translateBlock` accumulates. -/
theorem accum_resetBuffer :
    Accum (modifyS fun s => {s with insts := [], term := Option.none}) := fun s =>
  ⟨List.Subset.refl _, List.Subset.refl _, rfl⟩

/-- `Accum` is closed under `bind`. -/
theorem accum_bind {m : TransM α} {k : α → TransM β} (hm : Accum m)
    (hk : ∀ a, Accum (k a)) : Accum (m >>= k) := by
  intro s
  rcases hr : m s with ⟨s1, r⟩
  have h1 := hm s
  rw [hr] at h1
  rw [run_bind, hr]
  cases r with
  | ok a =>
    have h2 := hk a s1
    exact ⟨h1.1.trans h2.1, h1.2.1.trans h2.2.1, h2.2.2.trans h1.2.2⟩
  | error e => exact h1

/-- `reg` accumulates. -/
theorem accum_reg (r : Reg) : Accum (reg r) := by
  intro s
  unfold reg
  split
  · exact ⟨List.Subset.refl _, List.Subset.refl _, rfl⟩
  · split
    · exact ⟨List.subset_append_left _ _, List.Subset.refl _, rfl⟩
    · exact ⟨List.Subset.refl _, List.Subset.refl _, rfl⟩

/-- `status` accumulates. -/
theorem accum_status (st : StatusFlag) : Accum (status st) := by
  intro s
  unfold status
  split
  · exact ⟨List.Subset.refl _, List.Subset.refl _, rfl⟩
  · exact ⟨List.Subset.refl _, List.subset_append_left _ _, rfl⟩

/-- `useStatus` accumulates. -/
theorem accum_useStatus (st : StatusFlag) : Accum (useStatus st) :=
  accum_bind (accum_status st) fun _ => accum_emit _

/-- `defStatus` accumulates. -/
theorem accum_defStatus (st : StatusFlag) (v : Value) : Accum (defStatus st v) :=
  accum_bind (accum_status st) fun _ =>
    accum_bind (accum_emit _) fun _ => accum_pure _

/-- `getElementPtr` accumulates. -/
theorem accum_getElementPtr (src : Value) (srcTy : Ty) (offset : Int) :
    Accum (getElementPtr src srcTy offset) := by
  cases srcTy with
  | ptr elem =>
    show Accum
      (if (0 : Int) ≥ offset then emit (.gep src [])
       else
         match gepWalk elem 0 offset [0] with
         | .ok indices => emit (.gep src indices)
         | .error e => throwT e)
    by_cases h : (0 : Int) ≥ offset
    · rw [if_pos h]; exact accum_emit _
    · rw [if_neg h]
      rcases hg : gepWalk elem 0 offset [0] with ind | e
      · exact accum_throwT _
      · exact accum_emit _
  | void => exact accum_throwT _
  | i1 => exact accum_throwT _
  | i8 => exact accum_throwT _
  | i16 => exact accum_throwT _
  | i32 => exact accum_throwT _
  | i64 => exact accum_throwT _
  | arr n t => exact accum_throwT _
  | strct fields => exact accum_throwT _

/-- `global` accumulates. -/
theorem accum_global (d : Disasm) (f : function) (addr : Addr) :
    Accum (global d f addr) := by
  unfold global
  rcases hlk : lookupA d.globals addr with _ | ty
  · dsimp only
    set gl := List.insertionSort (fun x1 x2 => x1 ≤ x2) (List.map Prod.fst d.globals)
      with hgl
    set idx := List.findIdx (fun a => decide (addr < a)) gl with hidxd
    by_cases h1 : 1 ≤ idx ∧ idx - 1 < gl.length
    · rw [if_pos h1]
      rcases hlk2 : lookupA d.globals (gl.getD (idx - 1) 0) with _ | ty2
      · exact accum_throwT _
      · dsimp only
        by_cases h2 : gl.getD (idx - 1) 0 ≤ addr ∧
            addr < gl.getD (idx - 1) 0 + sizeOfType ty2
        · rw [if_pos h2]; exact accum_getElementPtr _ _ _
        · rw [if_neg h2]; exact accum_throwT _
    · rw [if_neg h1]; exact accum_throwT _
  · exact accum_pure _

/-- `useGlobal` accumulates. -/
theorem accum_useGlobal (d : Disasm) (f : function) (addr : Addr) :
    Accum (useGlobal d f addr) :=
  accum_bind (accum_global d f addr) fun _ => accum_emit _

/-- `defGlobal` accumulates. -/
theorem accum_defGlobal (d : Disasm) (f : function) (addr : Addr) (v : Value) :
    Accum (defGlobal d f addr v) :=
  accum_bind (accum_global d f addr) fun _ =>
    accum_bind (accum_emit _) fun _ => accum_pure _

/-- `useArg` accumulates. -/
theorem accum_useArg (d : Disasm) (f : function) (oi : Option instruction) (arg : Arg) :
    Accum (useArg d f oi arg) := by
  cases arg with
  | reg r => exact accum_bind (accum_reg r) fun _ => accum_emit _
  | mem seg base scale index disp =>
    show Accum
      (if seg = 0 ∧ base = 0 ∧ scale = 0 ∧ index = 0 then useGlobal d f disp
       else throwT (.goPanic .unsupportedArgType))
    by_cases h : seg = 0 ∧ base = 0 ∧ scale = 0 ∧ index = 0
    · rw [if_pos h]; exact accum_useGlobal _ _ _
    · rw [if_neg h]; exact accum_throwT _
  | imm v => exact accum_pure _
  | rel off =>
    cases oi with
    | none => exact accum_throwT _
    | some i =>
      show Accum
        (match lookupA d.funcs (i.addr + (i.len : Int) + off) with
         | some fn => TransM.pure (Value.func fn)
         | Option.none => useGlobal d f (i.addr + (i.len : Int) + off))
      rcases hlk : lookupA d.funcs (i.addr + (i.len : Int) + off) with _ | fn
      · exact accum_useGlobal _ _ _
      · exact accum_pure _
  | none => exact accum_throwT _

/-- `defArg` accumulates. -/
theorem accum_defArg (d : Disasm) (f : function) (oi : Option instruction) (arg : Arg)
    (v : Value) : Accum (defArg d f oi arg v) := by
  cases arg with
  | reg r =>
    exact accum_bind (accum_reg r) fun _ =>
      accum_bind (accum_emit _) fun _ => accum_pure _
  | mem seg base scale index disp =>
    show Accum
      (if seg = 0 ∧ base = 0 ∧ scale = 0 ∧ index = 0 then defGlobal d f disp v
       else throwT (.goPanic .unsupportedArgType))
    by_cases h : seg = 0 ∧ base = 0 ∧ scale = 0 ∧ index = 0
    · rw [if_pos h]; exact accum_defGlobal _ _ _ _
    · rw [if_neg h]; exact accum_throwT _
  | imm v0 => exact accum_throwT _
  | rel off => exact accum_throwT _
  | none => exact accum_throwT _

/-- `updateStatusFlags` accumulates. -/
theorem accum_updateStatusFlags (f : function) (x y : Value) :
    Accum (updateStatusFlags f x y) :=
  accum_bind (accum_emit _) fun _ =>
    accum_bind (accum_defStatus _ _) fun _ =>
      accum_bind (accum_emit _) fun _ => accum_defStatus _ _

/-- `instADD` accumulates. -/
theorem accum_instADD (d : Disasm) (f : function) (i : instruction) :
    Accum (instADD d f i) :=
  accum_bind (accum_useArg _ _ _ _) fun _ =>
    accum_bind (accum_useArg _ _ _ _) fun _ =>
      accum_bind (accum_emit _) fun _ => accum_defArg _ _ _ _ _

/-- `instAND` accumulates. -/
theorem accum_instAND (d : Disasm) (f : function) (i : instruction) :
    Accum (instAND d f i) :=
  accum_bind (accum_useArg _ _ _ _) fun _ =>
    accum_bind (accum_useArg _ _ _ _) fun _ =>
      accum_bind (accum_emit _) fun _ => accum_defArg _ _ _ _ _

/-- `instCALL` accumulates. -/
theorem accum_instCALL (d : Disasm) (f : function) (i : instruction) :
    Accum (instCALL d f i) := by
  refine accum_bind (accum_useArg _ _ _ _) fun c => ?_
  cases c with
  | func callee =>
    dsimp only
    have hjp : ∀ args : List Value,
        Accum (emit (.call (.func callee) args) >>= fun result =>
          if callee.retTy.isVoid = true then TransM.pure ()
          else defArg d f Option.none (.reg EAX) result) := by
      intro args
      refine accum_bind (accum_emit _) fun result => ?_
      by_cases hv : callee.retTy.isVoid = true
      · rw [if_pos hv]; exact accum_pure _
      · rw [if_neg hv]; exact accum_defArg _ _ _ _ _
    cases hcc : callee.callconv
    case fastcall =>
      by_cases h0 : 0 < callee.nparams
      · rw [if_pos h0]
        refine accum_bind (accum_useArg _ _ _ _) fun a0 => ?_
        by_cases h1 : 1 < callee.nparams
        · rw [if_pos h1]
          exact accum_bind (accum_useArg _ _ _ _) fun a1 =>
            accum_bind (accum_pure _) fun y => hjp y
        · rw [if_neg h1]
          exact accum_bind (accum_pure _) fun y => hjp y
      · rw [if_neg h0]
        exact accum_bind (accum_pure _) fun y => hjp y
    case unknown =>
      exact accum_bind (accum_pure _) fun y => hjp y
  | inst id => exact accum_throwT _
  | constInt v ty => exact accum_throwT _
  | global a => exact accum_throwT _
  | regCell r => exact accum_throwT _
  | statusCell st => exact accum_throwT _
  | param i0 => exact accum_throwT _

/-- `instCMP` accumulates. -/
theorem accum_instCMP (d : Disasm) (f : function) (i : instruction) :
    Accum (instCMP d f i) :=
  accum_bind (accum_useArg _ _ _ _) fun _ =>
    accum_bind (accum_useArg _ _ _ _) fun _ => accum_updateStatusFlags _ _ _

/-- `instIMUL` accumulates. -/
theorem accum_instIMUL (d : Disasm) (f : function) (i : instruction) :
    Accum (instIMUL d f i) :=
  accum_bind (accum_useArg _ _ _ _) fun _ =>
    accum_bind (accum_useArg _ _ _ _) fun _ =>
      accum_bind (accum_emit _) fun _ => accum_defArg _ _ _ _ _

/-- `instINC` accumulates. -/
theorem accum_instINC (d : Disasm) (f : function) (i : instruction) :
    Accum (instINC d f i) :=
  accum_bind (accum_useArg _ _ _ _) fun _ =>
    accum_bind (accum_emit _) fun _ => accum_defArg _ _ _ _ _

/-- `instMOV` accumulates. -/
theorem accum_instMOV (d : Disasm) (f : function) (i : instruction) :
    Accum (instMOV d f i) :=
  accum_bind (accum_useArg _ _ _ _) fun _ => accum_defArg _ _ _ _ _

/-- `instXOR` accumulates. -/
theorem accum_instXOR (d : Disasm) (f : function) (i : instruction) :
    Accum (instXOR d f i) :=
  accum_bind (accum_useArg _ _ _ _) fun _ =>
    accum_bind (accum_useArg _ _ _ _) fun _ =>
      accum_bind (accum_emit _) fun _ => accum_defArg _ _ _ _ _

/-- `translateInst` accumulates. -/
theorem accum_translateInst (d : Disasm) (f : function) (i : instruction) :
    Accum (translateInst d f i) := by
  unfold translateInst
  cases i.op
  case ADD => exact accum_instADD _ _ _
  case AND => exact accum_instAND _ _ _
  case CALL => exact accum_instCALL _ _ _
  case CMP => exact accum_instCMP _ _ _
  case IMUL => exact accum_instIMUL _ _ _
  case INC => exact accum_instINC _ _ _
  case MOV => exact accum_instMOV _ _ _
  case PUSH => exact accum_pure _
  case POP => exact accum_pure _
  case XOR => exact accum_instXOR _ _ _
  all_goals exact accum_throwT _

/-- `termCondBranch` accumulates. -/
theorem accum_termCondBranch (d : Disasm) (f : function) (term : instruction) :
    Accum (termCondBranch d f term) := by
  unfold termCondBranch
  dsimp only
  rcases hga : getAddrs d (term.addr + (term.len : Int)) (argN term 0) with
    _ | ⟨a1, _ | ⟨a2, rest⟩⟩
  · exact accum_throwT _
  · dsimp only
    rcases hl1 : lookupA f.blocks a1 with _ | bT
    · exact accum_throwT _
    · rcases hl2 : lookupA f.blocks (term.addr + (term.len : Int)) with _ | bF
      · exact accum_throwT _
      · refine accum_bind ?_ fun cond => accum_emitTerm _
        cases hop : term.op
        case JL =>
          exact accum_bind (accum_useStatus _) fun _ =>
            accum_bind (accum_useStatus _) fun _ => accum_emit _
        case JG =>
          exact accum_bind (accum_useStatus _) fun _ =>
            accum_bind (accum_useStatus _) fun _ =>
              accum_bind (accum_useStatus _) fun _ =>
                accum_bind (accum_emit _) fun _ =>
                  accum_bind (accum_emit _) fun _ => accum_emit _
        case JNE =>
          exact accum_bind (accum_useStatus _) fun _ => accum_emit _
        all_goals exact accum_throwT _
  · dsimp only
    exact accum_throwT _

/-- `termRET` accumulates. -/
theorem accum_termRET (d : Disasm) (f : function) (term : instruction) :
    Accum (termRET d f term) := by
  unfold termRET
  by_cases h : f.retTy.isVoid
  · rw [if_neg (by simp [h])]
    exact accum_emitTerm _
  · rw [if_pos (by simp [h])]
    exact accum_bind (accum_useArg _ _ _ _) fun _ => accum_emitTerm _

/-- `termJMP` accumulates. -/
theorem accum_termJMP (d : Disasm) (f : function) (term : instruction) :
    Accum (termJMP d f term) := by
  unfold termJMP
  by_cases htc : d.tailCall f.entry term = true
  · rw [if_pos htc]
    refine accum_bind (accum_instCALL _ _ _) fun _ => ?_
    by_cases h : f.retTy.isVoid
    · rw [if_neg (by simp [h])]
      exact accum_emitTerm _
    · rw [if_pos (by simp [h])]
      exact accum_bind (accum_useArg _ _ _ _) fun _ => accum_emitTerm _
  · rw [if_neg htc]
    exact accum_throwT _

/-- `translateTerm` accumulates. -/
theorem accum_translateTerm (d : Disasm) (f : function) (term : instruction) :
    Accum (translateTerm d f term) := by
  unfold translateTerm
  by_cases hd : term.dummyTerm = true
  · rw [if_pos hd]
    rcases hl : lookupA f.blocks term.addr with _ | b
    · exact accum_throwT _
    · exact accum_emitTerm _
  · rw [if_neg hd]
    cases hop : term.op
    all_goals
      first
      | exact accum_termJMP _ _ _
      | exact accum_termRET _ _ _
      | exact accum_termCondBranch _ _ _
      | exact accum_throwT _

/-- The instruction loop accumulates. -/
theorem accum_translateInsts (d : Disasm) (f : function) (l : List instruction) :
    Accum (translateInsts d f l) := by
  induction l with
  | nil => exact accum_pure _
  | cons i rest ih =>
    exact accum_bind (accum_translateInst _ _ _) fun _ => ih

/-- `translateBlock` accumulates. -/
theorem accum_translateBlock (d : Disasm) (f : function) (b : SrcBlock) :
    Accum (translateBlock d f b) :=
  accum_bind accum_resetBuffer fun _ =>
    accum_bind (accum_translateInsts _ _ _) fun _ =>
      accum_bind (accum_translateTerm _ _ _) fun _ =>
        accum_bind accum_getS fun _ => accum_pure _

/-- The block loop accumulates. -/
theorem accum_translateBlocksLoop (d : Disasm) (f : function) (addrs : List Addr) :
    Accum (translateBlocksLoop d f addrs) := by
  induction addrs with
  | nil => exact accum_pure _
  | cons a rest ih =>
    unfold translateBlocksLoop
    rcases hl : lookupA f.blocks a with _ | b
    · exact accum_throwT _
    · exact accum_bind (accum_translateBlock _ _ _) fun _ =>
        accum_bind ih fun _ => accum_pure _

/-- A block produced by `translateBlock` carries the source block's
address. -/
theorem translateBlock_addr (d : Disasm) (f : function) (b : SrcBlock)
    (s s' : TransState) (B : Block) (h : translateBlock d f b s = (s', .ok B)) :
    B.addr = some b.addr := by
  unfold translateBlock at h
  simp only [run_bind, modifyS, getS, run_pure] at h
  rcases h1 : translateInsts d f b.insts {s with insts := [], term := Option.none}
    with ⟨s1, r1⟩
  rw [h1] at h
  cases r1 with
  | error e => simp at h
  | ok u =>
    dsimp only at h
    rcases h2 : translateTerm d f b.term s1 with ⟨s2, r2⟩
    rw [h2] at h
    cases r2 with
    | error e => simp at h
    | ok u2 =>
      dsimp only at h
      have h' : ((s2, .ok { addr := some b.addr, insts := s2.insts, term := s2.term })
          : TransState × Except TransErr Block) = (s', .ok B) := h
      injection h' with hA hB
      injection hB with hB2
      rw [← hB2]

/-- Every block produced by the block loop has a real source address. -/
theorem translateBlocksLoop_real (d : Disasm) (f : function) :
    ∀ (addrs : List Addr) (s s' : TransState) (bl : List Block),
      translateBlocksLoop d f addrs s = (s', .ok bl) → ∀ B ∈ bl, B.addr.isSome := by
  intro addrs
  induction addrs with
  | nil =>
    intro s s' bl h
    have h' : ((s, .ok []) : TransState × Except TransErr (List Block)) = (s', .ok bl) := h
    injection h' with h1 h2
    injection h2 with h3
    subst h3
    intro B hB
    cases hB
  | cons a rest ih =>
    intro s s' bl h
    unfold translateBlocksLoop at h
    rcases hlk : lookupA f.blocks a with _ | b
    · rw [hlk] at h
      simp [throwT] at h
    · rw [hlk] at h
      simp only [run_bind, run_pure] at h
      rcases hB : translateBlock d f b s with ⟨sB, rB⟩
      rw [hB] at h
      cases rB with
      | error e => simp at h
      | ok B1 =>
        dsimp only at h
        rcases hR : translateBlocksLoop d f rest sB with ⟨sR, rR⟩
        rw [hR] at h
        cases rR with
        | error e => simp at h
        | ok blR =>
          dsimp only at h
          have h' : ((sR, .ok (B1 :: blR)) : TransState × Except TransErr (List Block))
              = (s', .ok bl) := h
          injection h' with h1 h2
          injection h2 with h3
          subst h3
          intro B hB2
          rcases List.mem_cons.mp hB2 with he | hm
          · subst he
            rw [translateBlock_addr d f b s sB B hB]
            rfl
          · exact ih sB sR blR hR B hm

/-- The block loop decomposes over list append: translating the blocks of
`l1 ++ l2` is translating those of `l1`, then those of `l2`, then
concatenating the results. -/
theorem translateBlocksLoop_append (d : Disasm) (f : function) (l1 l2 : List Addr) :
    ∀ s, translateBlocksLoop d f (l1 ++ l2) s =
      (translateBlocksLoop d f l1 >>= fun bl1 =>
        translateBlocksLoop d f l2 >>= fun bl2 => TransM.pure (bl1 ++ bl2)) s := by
  induction l1 with
  | nil =>
    intro s
    simp only [List.nil_append, translateBlocksLoop, run_bind, run_pure]
    rcases h2 : translateBlocksLoop d f l2 s with ⟨s2, r2⟩
    cases r2 <;> rfl
  | cons a rest ih =>
    intro s
    show translateBlocksLoop d f (a :: (rest ++ l2)) s = _
    simp only [translateBlocksLoop, run_bind]
    rcases hlk : lookupA f.blocks a with _ | b
    · rfl
    · dsimp only
      simp only [run_bind]
      rcases hB : translateBlock d f b s with ⟨sB, rB⟩
      cases rB with
      | error e => rfl
      | ok B1 =>
        dsimp only
        rw [ih sB]
        simp only [run_bind]
        rcases hR : translateBlocksLoop d f rest sB with ⟨sR, rR⟩
        cases rR with
        | error e => rfl
        | ok blR =>
          dsimp only
          simp only [run_pure]
          rcases h2 : translateBlocksLoop d f l2 sR with ⟨s2, r2⟩
          cases r2 with
          | error e => rfl
          | ok bl2 => simp [run_pure]

/-- Run of a guarded store (the shape of each fastcall parameter store of
the entry block): it emits the store exactly when both guards hold, and
touches nothing else. -/
theorem run_condStore (c1 c2 : Prop) [Decidable c1] [Decidable c2] (i : Inst) :
    ∀ s : TransState, ∃ s' : TransState,
      ((if c1 then
          if c2 then (emit i >>= fun _ => TransM.pure ()) else TransM.pure ()
        else TransM.pure ()) : TransM Unit) s = (s', .ok ()) ∧
      s'.insts.map Prod.snd = s.insts.map Prod.snd ++ (if c1 ∧ c2 then [i] else []) ∧
      s'.regs = s.regs ∧ s'.status = s.status ∧ s'.term = s.term ∧ s'.body = s.body := by
  intro s
  by_cases h1 : c1
  · by_cases h2 : c2
    · refine ⟨{s with nextId := s.nextId + 1, insts := s.insts ++ [(s.nextId, i)]},
        ?_, ?_, rfl, rfl, rfl, rfl⟩
      · rw [if_pos h1, if_pos h2, run_bind, emit_eq]
        rfl
      · simp [if_pos (⟨h1, h2⟩ : c1 ∧ c2)]
    · refine ⟨s, ?_, ?_, rfl, rfl, rfl, rfl⟩
      · rw [if_pos h1, if_neg h2]
        rfl
      · simp [h2]
  · refine ⟨s, ?_, ?_, rfl, rfl, rfl, rfl⟩
    · rw [if_neg h1]
      rfl
    · simp [h1]

/-- Run of the entry-block register loop: it emits the allocas of exactly
the used registers among `l`, in the order of `l`, and touches nothing
else. -/
theorem declareRegs_run (used : List Reg) (l : List Reg) :
    ∀ s : TransState, ∃ s' : TransState, declareRegs used l s = (s', .ok ()) ∧
      s'.insts.map Prod.snd = s.insts.map Prod.snd ++
        ((l.filter (fun r => decide (r ∈ used))).map Inst.allocaReg) ∧
      s'.regs = s.regs ∧ s'.status = s.status ∧ s'.term = s.term ∧ s'.body = s.body := by
  induction l with
  | nil =>
    intro s
    exact ⟨s, rfl, by simp, rfl, rfl, rfl, rfl⟩
  | cons r rest ih =>
    intro s
    by_cases hr : r ∈ used
    · obtain ⟨s', h1, h2, h3, h4, h5, h6⟩ := ih
        {s with nextId := s.nextId + 1, insts := s.insts ++ [(s.nextId, .allocaReg r)]}
      refine ⟨s', ?_, ?_, h3, h4, h5, h6⟩
      · show (if r ∈ used then
            (emit (Inst.allocaReg r) >>= fun _ => declareRegs used rest)
          else declareRegs used rest) s = (s', .ok ())
        rw [if_pos hr, run_bind, emit_eq]
        exact h1
      · rw [h2]
        simp [List.filter_cons, hr, List.append_assoc]
    · obtain ⟨s', h1, h2, h3, h4, h5, h6⟩ := ih s
      refine ⟨s', ?_, ?_, h3, h4, h5, h6⟩
      · show (if r ∈ used then
            (emit (Inst.allocaReg r) >>= fun _ => declareRegs used rest)
          else declareRegs used rest) s = (s', .ok ())
        rw [if_neg hr]
        exact h1
      · rw [h2]
        simp [List.filter_cons, hr]

/-- Run of the entry-block flag loop: it emits the allocas of exactly the
used flags among `l`, in the order of `l`, and touches nothing else. -/
theorem declareStatus_run (used : List StatusFlag) (l : List StatusFlag) :
    ∀ s : TransState, ∃ s' : TransState, declareStatus used l s = (s', .ok ()) ∧
      s'.insts.map Prod.snd = s.insts.map Prod.snd ++
        ((l.filter (fun st => decide (st ∈ used))).map Inst.allocaStatus) ∧
      s'.regs = s.regs ∧ s'.status = s.status ∧ s'.term = s.term ∧ s'.body = s.body := by
  induction l with
  | nil =>
    intro s
    exact ⟨s, rfl, by simp, rfl, rfl, rfl, rfl⟩
  | cons st rest ih =>
    intro s
    by_cases hst : st ∈ used
    · obtain ⟨s', h1, h2, h3, h4, h5, h6⟩ := ih
        {s with nextId := s.nextId + 1, insts := s.insts ++ [(s.nextId, .allocaStatus st)]}
      refine ⟨s', ?_, ?_, h3, h4, h5, h6⟩
      · show (if st ∈ used then
            (emit (Inst.allocaStatus st) >>= fun _ => declareStatus used rest)
          else declareStatus used rest) s = (s', .ok ())
        rw [if_pos hst, run_bind, emit_eq]
        exact h1
      · rw [h2]
        simp [List.filter_cons, hst, List.append_assoc]
    · obtain ⟨s', h1, h2, h3, h4, h5, h6⟩ := ih s
      refine ⟨s', ?_, ?_, h3, h4, h5, h6⟩
      · show (if st ∈ used then
            (emit (Inst.allocaStatus st) >>= fun _ => declareStatus used rest)
          else declareStatus used rest) s = (s', .ok ())
        rw [if_neg hst]
        exact h1
      · rw [h2]
        simp [List.filter_cons, hst]

/-- Run of the calling-convention section of the entry block: it emits
exactly `ccStores` and touches nothing else. -/
theorem entryCallConv_run (f : function) (used : List Reg) :
    ∀ s : TransState, ∃ s' : TransState, entryCallConv f used s = (s', .ok ()) ∧
      s'.insts.map Prod.snd = s.insts.map Prod.snd ++ ccStores f used ∧
      s'.regs = s.regs ∧ s'.status = s.status ∧ s'.term = s.term ∧ s'.body = s.body := by
  intro s
  cases hcc : f.callconv with
  | fastcall =>
    obtain ⟨s1, hA, hA2, hA3, hA4, hA5, hA6⟩ :=
      run_condStore (0 < f.nparams) (ECX ∈ used) (.store (.param 0) (.regCell ECX)) s
    obtain ⟨s2, hB, hB2, hB3, hB4, hB5, hB6⟩ :=
      run_condStore (1 < f.nparams) (EDX ∈ used) (.store (.param 1) (.regCell EDX)) s1
    refine ⟨s2, ?_, ?_, by rw [hB3, hA3], by rw [hB4, hA4], by rw [hB5, hA5],
      by rw [hB6, hA6]⟩
    · simp only [entryCallConv, hcc]
      rw [run_bind, hA]
      exact hB
    · rw [hB2, hA2]
      simp [ccStores, hcc, List.append_assoc]
  | unknown =>
    refine ⟨s, ?_, ?_, rfl, rfl, rfl, rfl⟩
    · simp only [entryCallConv, hcc]
      rfl
    · simp [ccStores, hcc]

/-- Master run characterization of `translateFunc`: the cell maps only
grow; on failure the body is untouched; on success the body gets the
address-sorted translated blocks appended, preceded by the synthetic
entry block (with its declarations, calling-convention stores and branch
to the first sorted block) exactly when the function used at least one
register or flag cell. -/
theorem translateFunc_run (d : Disasm) (f : function) (s0 s1 : TransState)
    (r : Except TransErr Unit) (h : translateFunc d f s0 = (s1, r)) :
    s0.regs ⊆ s1.regs ∧ s0.status ⊆ s1.status ∧
    (∀ e, r = .error e → s1.body = s0.body) ∧
    (r = .ok () → ∃ sA blocks,
      translateBlocksLoop d f (List.insertionSort (· ≤ ·)
        (f.blocks.map fun p => p.2.addr)) s0 = (sA, .ok blocks) ∧
      blocks ≠ [] ∧
      s1.regs = sA.regs ∧ s1.status = sA.status ∧
      ((sA.regs = [] ∧ sA.status = []) →
         s1.body = s0.body ++ List.insertionSort blockLe blocks) ∧
      (¬(sA.regs = [] ∧ sA.status = []) →
        ∃ entry target rest,
          List.insertionSort blockLe blocks = target :: rest ∧
          s1.body = s0.body ++ (entry :: target :: rest) ∧
          entry.addr = Option.none ∧
          entry.insts.map Prod.snd =
            canonicalRegDecls sA.regs ++ canonicalStatusDecls sA.status ++
              ccStores f sA.regs ∧
          entry.term = some (.br target.sortAddr))) := by
  unfold translateFunc at h
  simp only [run_bind, getS, modifyS, emitTerm, run_pure] at h
  rcases hL : translateBlocksLoop d f
      (List.insertionSort (fun x1 x2 => x1 ≤ x2) (List.map (fun p => p.2.addr) f.blocks))
      s0 with ⟨sA, rA⟩
  have hAcc := accum_translateBlocksLoop d f
    (List.insertionSort (fun x1 x2 => x1 ≤ x2) (List.map (fun p => p.2.addr) f.blocks)) s0
  rw [hL] at h hAcc
  obtain ⟨hAr, hAs, hAb⟩ := hAcc
  cases rA with
  | error e =>
    have h' : ((sA, .error e) : TransState × Except TransErr Unit) = (s1, r) := h
    injection h' with h1 h2
    subst h1
    subst h2
    refine ⟨hAr, hAs, fun e2 _ => hAb, fun hok => ?_⟩
    simp at hok
  | ok blocks =>
    dsimp only at h
    cases blocks with
    | nil =>
      have h' : ((sA, .error (.goError .missingFunctionBody))
          : TransState × Except TransErr Unit) = (s1, r) := h
      injection h' with h1 h2
      subst h1
      subst h2
      refine ⟨hAr, hAs, fun e2 _ => hAb, fun hok => ?_⟩
      simp at hok
    | cons b bs =>
      dsimp only at h
      simp only [run_bind, getS, modifyS, emitTerm, run_pure] at h
      dsimp only at hAr hAs hAb
      by_cases hc : 0 < sA.regs.length ∨ 0 < sA.status.length
      · rw [if_pos hc] at h
        simp only [run_bind, getS, modifyS, emitTerm, run_pure] at h
        obtain ⟨sC, hC1, hC2, hC3, hC4, hC5, hC6⟩ :=
          declareRegs_run sA.regs regOrder {sA with insts := [], term := Option.none}
        rw [hC1] at h
        dsimp only at h
        obtain ⟨sD, hD1, hD2, hD3, hD4, hD5, hD6⟩ := declareStatus_run sA.status statusOrder sC
        rw [hD1] at h
        dsimp only at h
        obtain ⟨sE, hE1, hE2, hE3, hE4, hE5, hE6⟩ := entryCallConv_run f sA.regs sD
        rw [hE1] at h
        dsimp only at h
        rcases hS : List.insertionSort blockLe (b :: bs) with _ | ⟨target, rest⟩
        · rw [hS] at h
          have h' : ((sE, .error (.goPanic .nilDereference))
              : TransState × Except TransErr Unit) = (s1, r) := h
          injection h' with h1 h2
          subst h1
          subst h2
          have hbody : sE.body = s0.body := by rw [hE6, hD6, hC6]; exact hAb
          have hregs : sE.regs = sA.regs := by rw [hE3, hD3, hC3]
          have hstatus : sE.status = sA.status := by rw [hE4, hD4, hC4]
          refine ⟨?_, ?_, fun e2 _ => hbody, fun hok => ?_⟩
          · rw [hregs]; exact hAr
          · rw [hstatus]; exact hAs
          · simp at hok
        · rw [hS] at h
          dsimp only at h
          have h' : (({sE with
                        term := some (.br target.sortAddr),
                        body := sE.body ++
                          ({ addr := Option.none, insts := sE.insts,
                             term := some (.br target.sortAddr) } : Block) ::
                            target :: rest}, .ok ())
              : TransState × Except TransErr Unit) = (s1, r) := h
          injection h' with h1 h2
          subst h1
          subst h2
          have hregs : sE.regs = sA.regs := by rw [hE3, hD3, hC3]
          have hstatus : sE.status = sA.status := by rw [hE4, hD4, hC4]
          have hbody : sE.body = s0.body := by rw [hE6, hD6, hC6]; exact hAb
          refine ⟨?_, ?_, fun e2 he => by simp at he, fun _ => ?_⟩
          · show s0.regs ⊆ sE.regs
            rw [hregs]; exact hAr
          · show s0.status ⊆ sE.status
            rw [hstatus]; exact hAs
          · refine ⟨sA, b :: bs, hL, by simp, hregs, hstatus, fun hnil => ?_, fun _ => ?_⟩
            · exact absurd hc (by simp [hnil.1, hnil.2])
            · refine ⟨{ addr := Option.none, insts := sE.insts,
                        term := some (.br target.sortAddr) },
                target, rest, hS, ?_, rfl, ?_, rfl⟩
              · show sE.body ++ _ = s0.body ++ _
                rw [hbody]
              · show sE.insts.map Prod.snd = _
                rw [hE2, hD2, hC2]
                simp [canonicalRegDecls, canonicalStatusDecls, List.append_assoc]
      · rw [if_neg hc] at h
        simp only [modifyS] at h
        have h' : (({sA with body := sA.body ++ List.insertionSort blockLe (b :: bs)},
            .ok ()) : TransState × Except TransErr Unit) = (s1, r) := h
        injection h' with h1 h2
        subst h1
        subst h2
        refine ⟨hAr, hAs, fun e2 he => by simp at he, fun _ => ?_⟩
        refine ⟨sA, b :: bs, hL, by simp, rfl, rfl, fun _ => ?_, fun hnn => ?_⟩
        · show sA.body ++ _ = s0.body ++ _
          rw [hAb]
        · push_neg at hc
          exact absurd ⟨List.length_eq_zero.mp (Nat.le_zero.mp hc.1),
            List.length_eq_zero.mp (Nat.le_zero.mp hc.2)⟩ hnn

/-- C10: if translating any block fails, the error is returned before any
basic block is appended to the function body (the body is unchanged),
while the register and flag cells recorded so far are kept: the cell maps
only grow across a run, and the cells present after a successful prefix
of the block loop are still present after a later block of the loop
fails. -/
theorem c10_error_empty_body_cells_persist :
    (∀ (d : Disasm) (f : function) (s0 s1 : TransState) (e : TransErr),
       translateFunc d f s0 = (s1, .error e) → s1.body = s0.body) ∧
    (∀ (d : Disasm) (f : function) (s0 s1 : TransState) (r : Except TransErr Unit),
       translateFunc d f s0 = (s1, r) → s0.regs ⊆ s1.regs ∧ s0.status ⊆ s1.status) ∧
    (∀ (d : Disasm) (f : function) (l1 l2 : List Addr) (s0 sMid s1 : TransState)
       (bl1 : List Block) (e : TransErr),
       translateBlocksLoop d f l1 s0 = (sMid, .ok bl1) →
       translateBlocksLoop d f (l1 ++ l2) s0 = (s1, .error e) →
       sMid.regs ⊆ s1.regs ∧ sMid.status ⊆ s1.status ∧ s1.body = sMid.body) := by
  refine ⟨?_, ?_, ?_⟩
  · intro d f s0 s1 e h
    exact (translateFunc_run d f s0 s1 _ h).2.2.1 e rfl
  · intro d f s0 s1 r h
    exact ⟨(translateFunc_run d f s0 s1 r h).1, (translateFunc_run d f s0 s1 r h).2.1⟩
  · intro d f l1 l2 s0 sMid s1 bl1 e h1 h2
    rw [translateBlocksLoop_append d f l1 l2 s0] at h2
    rw [run_bind, h1] at h2
    dsimp only at h2
    rw [run_bind] at h2
    have hAcc := accum_translateBlocksLoop d f l2 sMid
    rcases hL2 : translateBlocksLoop d f l2 sMid with ⟨sL, rL⟩
    rw [hL2] at h2 hAcc
    cases rL with
    | error eL =>
      dsimp only at h2 hAcc
      have h' : ((sL, .error eL) : TransState × Except TransErr (List Block))
          = (s1, .error e) := h2
      injection h' with ha hb
      subst ha
      exact ⟨hAcc.1, hAcc.2.1, hAcc.2.2⟩
    | ok bl2 =>
      dsimp only at h2
      simp [run_pure] at h2

/-- Witness for C10: a failing translation leaves the body empty; a
successful one only grows the cell maps; and translating `[0] ++ [99]`
(the second address names no block and fails) keeps the cells recorded by
the successful prefix `[0]`. -/
theorem c10_witness :
    ((initState : TransState).body = initState.body) ∧
    (initState.regs ⊆ (translateFunc exD exFMov initState).1.regs ∧
      initState.status ⊆ (translateFunc exD exFMov initState).1.status) ∧
    ((translateBlocksLoop exD exFMov [(0 : Addr)] initState).1.regs ⊆
        (translateBlocksLoop exD exFMov ([(0 : Addr)] ++ [99]) initState).1.regs ∧
      (translateBlocksLoop exD exFMov [(0 : Addr)] initState).1.status ⊆
        (translateBlocksLoop exD exFMov ([(0 : Addr)] ++ [99]) initState).1.status ∧
      (translateBlocksLoop exD exFMov ([(0 : Addr)] ++ [99]) initState).1.body =
        (translateBlocksLoop exD exFMov [(0 : Addr)] initState).1.body) :=
  ⟨c10_error_empty_body_cells_persist.1 exD exF initState initState
     (.goError .missingFunctionBody) rfl,
   c10_error_empty_body_cells_persist.2.1 exD exFMov initState
     (translateFunc exD exFMov initState).1 (translateFunc exD exFMov initState).2 rfl,
   c10_error_empty_body_cells_persist.2.2 exD exFMov [(0 : Addr)] [99] initState
     (translateBlocksLoop exD exFMov [(0 : Addr)] initState).1
     (translateBlocksLoop exD exFMov ([(0 : Addr)] ++ [99]) initState).1
     [(translateBlocksLoop exD exFMov [(0 : Addr)] initState).2.toOption.getD []].head!
     (.goPanic .nilDereference) (by rfl) (by rfl)⟩

/-- C4: from a fresh state, a function that uses at least one register or
flag cell gets exactly one synthetic entry block prepended (declaring the
used register cells in the canonical register order, then the used flag
cells in the canonical flag order, then the fastcall parameter stores for
the ECX and EDX cells when those cells exist, and branching to the first,
lowest-address real block); a function using no cells gets no synthetic
entry block. -/
theorem c4_entry_block_synthesis (d : Disasm) (f : function) (s1 : TransState)
    (hrun : translateFunc d f initState = (s1, .ok ())) :
    EntrySynthesis f s1 := by
  obtain ⟨hr, hs, herr, hok⟩ := translateFunc_run d f initState s1 _ hrun
  obtain ⟨sA, blocks, hL, hne, hregs, hstatus, hEmpty, hEntry⟩ := hok rfl
  have hReal : ∀ B ∈ blocks, B.addr.isSome :=
    translateBlocksLoop_real d f _ initState sA blocks hL
  have hSorted : List.Sorted blockLe (List.insertionSort blockLe blocks) :=
    List.sorted_insertionSort blockLe blocks
  have hPerm : (List.insertionSort blockLe blocks).Perm blocks :=
    List.perm_insertionSort blockLe blocks
  constructor
  · intro hnil B hB
    have hb2 : s1.body = initState.body ++ List.insertionSort blockLe blocks := by
      apply hEmpty
      rw [← hregs, ← hstatus]
      exact hnil
    rw [hb2] at hB
    simp only [initState, List.nil_append] at hB
    exact hReal B (hPerm.mem_iff.mp hB)
  · intro hnn
    have hnn' : ¬(sA.regs = [] ∧ sA.status = []) := by
      rw [← hregs, ← hstatus]
      exact hnn
    obtain ⟨entry, target, rest, hS, hbody, haddr, hinsts, hterm⟩ := hEntry hnn'
    refine ⟨entry, target :: rest, ?_, haddr, ?_,
      ⟨target, rest, rfl, hterm, ?_⟩, ?_⟩
    · rw [hbody]
      simp [initState]
    · rw [hregs, hstatus]
      exact hinsts
    · rw [hS] at hSorted
      rw [List.sorted_cons] at hSorted
      intro bb hbb
      rcases List.mem_cons.mp hbb with he | hm
      · subst he
        exact le_refl _
      · exact hSorted.1 bb hm
    · intro B hB
      rw [hS] at hPerm
      exact hReal B (hPerm.mem_iff.mp hB)

/-- Witness for C4: the one-block function `MOV EAX, 1; RET` (which uses
the EAX cell) translated from the fresh state. -/
theorem c4_witness : EntrySynthesis exFMov (translateFunc exD exFMov initState).1 :=
  c4_entry_block_synthesis exD exFMov (translateFunc exD exFMov initState).1 rfl

/-- C7: for a function whose block map holds exactly blocks at addresses
a1 < a2 < a3 (in any map order), a successful translation from the fresh
state emits the translated blocks in exactly the order a1, a2, a3,
preceded only by the optional synthetic entry block. -/
theorem c7_block_order (d : Disasm) (a1 a2 a3 : Addr) (b1 b2 b3 : SrcBlock)
    (f : function) (s1 : TransState)
    (hperm : f.blocks.Perm [(a1, b1), (a2, b2), (a3, b3)])
    (ha1 : b1.addr = a1) (ha2 : b2.addr = a2) (ha3 : b3.addr = a3)
    (h12 : a1 < a2) (h23 : a2 < a3)
    (hrun : translateFunc d f initState = (s1, .ok ())) :
    s1.body.map Block.addr = [some a1, some a2, some a3] ∨
    s1.body.map Block.addr = [Option.none, some a1, some a2, some a3] := by
  have hmap : (f.blocks.map fun p => p.2.addr).Perm [a1, a2, a3] := by
    have h := hperm.map fun p => p.2.addr
    simpa [ha1, ha2, ha3] using h
  have hsT : List.Sorted (· ≤ ·) ([a1, a2, a3] : List Addr) := by
    simp [List.sorted_cons]
    exact ⟨⟨le_of_lt h12, le_of_lt (lt_trans h12 h23)⟩, le_of_lt h23⟩
  have hEq : List.insertionSort (· ≤ ·) (f.blocks.map fun p => p.2.addr) = [a1, a2, a3] :=
    List.eq_of_perm_of_sorted ((List.perm_insertionSort _ _).trans hmap)
      (List.sorted_insertionSort _ _) hsT
  have hnd : (f.blocks.map Prod.fst).Nodup := by
    refine (hperm.map Prod.fst).nodup_iff.mpr ?_
    simp
    exact ⟨⟨ne_of_lt h12, ne_of_lt (lt_trans h12 h23)⟩, ne_of_lt h23⟩
  have hlk1 : lookupA f.blocks a1 = some b1 :=
    lookupA_eq_some_of_mem hnd (hperm.mem_iff.mpr (by simp))
  have hlk2 : lookupA f.blocks a2 = some b2 :=
    lookupA_eq_some_of_mem hnd (hperm.mem_iff.mpr (by simp))
  have hlk3 : lookupA f.blocks a3 = some b3 :=
    lookupA_eq_some_of_mem hnd (hperm.mem_iff.mpr (by simp))
  obtain ⟨-, -, -, hok⟩ := translateFunc_run d f initState s1 _ hrun
  obtain ⟨sA, blocks, hL, hne, hregs, hstatus, hEmpty, hEntry⟩ := hok rfl
  rw [hEq] at hL
  simp only [translateBlocksLoop, hlk1, hlk2, hlk3, run_bind, run_pure] at hL
  rcases hB1 : translateBlock d f b1 initState with ⟨t1, r1⟩
  rw [hB1] at hL
  cases r1 with
  | error e => simp at hL
  | ok B1 =>
    dsimp only at hL
    rcases hB2 : translateBlock d f b2 t1 with ⟨t2, r2⟩
    rw [hB2] at hL
    cases r2 with
    | error e => simp at hL
    | ok B2 =>
      dsimp only at hL
      rcases hB3 : translateBlock d f b3 t2 with ⟨t3, r3⟩
      rw [hB3] at hL
      cases r3 with
      | error e => simp at hL
      | ok B3 =>
        dsimp only at hL
        have hL' : ((t3, .ok [B1, B2, B3]) : TransState × Except TransErr (List Block))
            = (sA, .ok blocks) := hL
        injection hL' with hLs hLb
        have hblocks : blocks = [B1, B2, B3] := by
          injection hLb with h
          exact h.symm
        have hA1 : B1.addr = some a1 := by
          rw [translateBlock_addr d f b1 initState t1 B1 hB1, ha1]
        have hA2 : B2.addr = some a2 := by
          rw [translateBlock_addr d f b2 t1 t2 B2 hB2, ha2]
        have hA3 : B3.addr = some a3 := by
          rw [translateBlock_addr d f b3 t2 t3 B3 hB3, ha3]
        have hSid : List.insertionSort blockLe [B1, B2, B3] = [B1, B2, B3] := by
          refine List.Sorted.insertionSort_eq ?_
          simp [List.sorted_cons, blockLe, Block.sortAddr, hA1, hA2, hA3]
          exact ⟨⟨le_of_lt h12, le_of_lt (lt_trans h12 h23)⟩, le_of_lt h23⟩
        by_cases hcell : sA.regs = [] ∧ sA.status = []
        · left
          rw [hEmpty hcell, hblocks, hSid]
          simp [initState, hA1, hA2, hA3]
        · right
          obtain ⟨entry, target, rest, hS, hbody, haddr, hinsts, hterm⟩ := hEntry hcell
          rw [hblocks, hSid] at hS
          injection hS with hT hR
          rw [hbody, ← hT, ← hR]
          simp [initState, haddr, hA1, hA2, hA3]

/-- Witness for C7: the three-block function whose map lists the blocks
at addresses 8, 0, 16 in that scrambled order. -/
theorem c7_witness :
    (translateFunc exD exF3 initState).1.body.map Block.addr =
        [some (0 : Addr), some 8, some 16] ∨
    (translateFunc exD exF3 initState).1.body.map Block.addr =
        [Option.none, some (0 : Addr), some 8, some 16] :=
  c7_block_order exD 0 8 16 exBlk0 exBlk8 exBlk16 exF3
    (translateFunc exD exF3 initState).1
    (List.Perm.swap (0, exBlk0) (8, exBlk8) [(16, exBlk16)])
    rfl rfl rfl (by decide) (by decide) rfl
